import Mathlib

/-!
Verification of the apy-apr-tradeoff numeric engine against its
natural-language specification.

The engine is shallowly embedded.  Monetary values (the `Amount` class of
`mini-money.js`, backed by decimal.js at `precision: 40` with the default
`ROUND_HALF_UP` precision rounding) are exact decimal fractions: decimal.js
stores a value as an exact decimal `m * 10 ^ k` and rounds the result of
every arithmetic operation to 40 significant digits.  They are modelled by
the structure `Dec` (an integer numerator over a power-of-ten denominator),
with every operation passing its exact result through `decR40` /
`roundSig40`, the rounding of a fraction to 40 significant decimal digits
half away from zero.  `Dec.toRat` maps a value into `ℚ` for stating and
proving numeric bounds.

JS `number` arithmetic (used by the engine only in `roundDownToCents` and
for plain constants) is modelled as exact arithmetic; every finite binary
double is an exact decimal, so finite JS numbers are `Dec` values, and the
non-finite numbers (`NaN`, `Infinity`, `-Infinity`) are a dedicated
constructor of `JSNum` — the engine only inspects them through
finiteness/integrality checks that all non-finite values fail alike.

JS `Date` values normalized to UTC midnight are modelled as
proleptic-Gregorian calendar triples (`CDate`), exactly the
year/month/day normalization ECMA-262 specifies for `Date.UTC`.

Fallible constructors and methods return `Except Err`.
-/

set_option maxRecDepth 40000

namespace ApyApr

/-- Typed failure categories of the engine, one per `throw`-site family
(section 7 of the specification). -/
inductive Err where
  | invalidValue
  | typeMismatch
  | divisionByZero
  | invalidExponent
  | negativeRadicand
  | invalidRoundingMode
  | invalidPeriodCount
  | unsupportedPeriodType
  | invalidRate
  | invalidPrincipal
  | invalidWithdrawal
  | invalidDayCount
  | invalidDate
  | invalidAmount
  | missingStartDate
  | invalidSchedule
  deriving DecidableEq, Repr

/-- An exact decimal fraction `num / 10 ^ exp`: the value space of
decimal.js decimals (and a superset of the finite JS doubles). -/
structure Dec where
  num : ℤ
  exp : ℕ
  deriving DecidableEq, Repr

namespace Dec

/-- The rational value of a decimal fraction. -/
def toRat (d : Dec) : ℚ := (d.num : ℚ) / 10 ^ d.exp

/-- The zero amount. -/
def zero : Dec := ⟨0, 0⟩

/-- The amount one. -/
def one : Dec := ⟨1, 0⟩

/-- Exact sum of two decimal fractions. -/
def add (a b : Dec) : Dec := ⟨a.num * 10 ^ b.exp + b.num * 10 ^ a.exp, a.exp + b.exp⟩

/-- Exact difference of two decimal fractions. -/
def sub (a b : Dec) : Dec := ⟨a.num * 10 ^ b.exp - b.num * 10 ^ a.exp, a.exp + b.exp⟩

/-- Exact product of two decimal fractions. -/
def mul (a b : Dec) : Dec := ⟨a.num * b.num, a.exp + b.exp⟩

/-- Value equality of two decimal fractions (`Amount.equals`, decimal.js
`Decimal.prototype.equals`: exact comparison, no epsilon). -/
def eqv (a b : Dec) : Prop := a.num * 10 ^ b.exp = b.num * 10 ^ a.exp

instance : DecidablePred fun p : Dec × Dec => eqv p.1 p.2 := fun _ => by
  unfold eqv; infer_instance

instance (a b : Dec) : Decidable (eqv a b) := by unfold eqv; infer_instance

/-- Strict value order (`Amount.lessThan`). -/
def ltv (a b : Dec) : Prop := a.num * 10 ^ b.exp < b.num * 10 ^ a.exp

instance (a b : Dec) : Decidable (ltv a b) := by unfold ltv; infer_instance

/-- The value is an integer (JS `Number.isInteger` on a finite value). -/
def isInt (d : Dec) : Prop := ((10 : ℤ) ^ d.exp) ∣ d.num

instance (d : Dec) : Decidable (isInt d) := by unfold isInt; infer_instance

/-- Integer value of an integral decimal fraction. -/
def toInt (d : Dec) : ℤ := d.num / (10 : ℤ) ^ d.exp

end Dec

/-- A JS `number` argument: either a finite value (an exact decimal) or a
non-finite value. -/
inductive JSNum where
  | num (d : Dec)
  | nonfinite
  deriving DecidableEq, Repr

/-- The optional rounding directive accepted by every `Amount` method
(`normalizeRoundingOptions` in `mini-money.js`).  All call sites in the
engine pass either no options (`none`) or
`{roundingMode: 'bankers', decimalPlaces: 2}`. -/
inductive RoundOpt where
  | none
  | bankers (decimalPlaces : ℕ)
  | conventional (decimalPlaces : ℕ)
  deriving DecidableEq, Repr

/-- Number of decimal digits of `n`, with an explicit fuel argument making
the recursion structural; fuel `n` always suffices. -/
def digitsFuel : ℕ → ℕ → ℕ
  | 0, _ => 0
  | f + 1, n => if n < 10 then 1 else digitsFuel f (n / 10) + 1

/-- Number of decimal digits of a positive natural number. -/
def digits10 (n : ℕ) : ℕ := digitsFuel n n

/-- Floor of the base-10 logarithm of the positive rational `a / b`,
computed from digit counts with a one-step correction. -/
def ratIlog10 (a b : ℕ) : ℤ :=
  let e0 : ℤ := (digits10 a : ℤ) - (digits10 b : ℤ)
  if 0 ≤ e0 then (if b * 10 ^ e0.toNat ≤ a then e0 else e0 - 1)
  else (if b ≤ a * 10 ^ (-e0).toNat then e0 else e0 - 1)

/-- Rounding of the fraction `p / q` (with `q ≠ 0`) to 40 significant
decimal digits, half away from zero, as a canonical decimal fraction.  This
models the precision rounding decimal.js applies to the result of every
arithmetic operation under `Decimal.set({precision: 40})` with the default
rounding `ROUND_HALF_UP`. -/
def roundSig40 (p q : ℤ) : Dec :=
  if p = 0 then ⟨0, 0⟩
  else
    let a := p.natAbs
    let b := q.natAbs
    let e0 := ratIlog10 a b
    let s0 := 39 - e0
    let N : ℕ := if 0 ≤ s0 then a * 10 ^ s0.toNat else a
    let D : ℕ := if 0 ≤ s0 then b else b * 10 ^ (-s0).toNat
    let m0 : ℕ := (2 * N + D) / (2 * D)
    let m : ℕ := if m0 = 10 ^ 40 then 10 ^ 39 else m0
    let s : ℤ := if m0 = 10 ^ 40 then s0 - 1 else s0
    let mz : ℤ := if (p < 0) ↔ (q < 0) then (m : ℤ) else -(m : ℤ)
    if 0 ≤ s then ⟨mz, s.toNat⟩ else ⟨mz * 10 ^ (-s).toNat, 0⟩

/-- Precision rounding of an exact decimal fraction to 40 significant
digits. -/
def decR40 (d : Dec) : Dec := roundSig40 d.num ((10 : ℤ) ^ d.exp)

/-- Round the fraction `p / 10 ^ k` to the nearest integer, ties to even
(bankers rounding, decimal.js `ROUND_HALF_EVEN`). -/
def rheFrac (p : ℤ) (k : ℕ) : ℤ :=
  let t : ℤ := 10 ^ k
  let n := p / t
  let r := p - n * t
  if 2 * r < t then n
  else if t < 2 * r then n + 1
  else if n % 2 = 0 then n else n + 1

/-- Round the fraction `p / 10 ^ k` to the nearest integer, ties away from
zero (decimal.js `ROUND_HALF_UP`, the conventional mode). -/
def rhaFrac (p : ℤ) (k : ℕ) : ℤ :=
  let t : ℤ := 10 ^ k
  if p < 0 then -((t - 2 * p) / (2 * t)) else (2 * p + t) / (2 * t)

/-- Apply the optional rounding directive of an `Amount` method
(`applyOptionalRounding` in `mini-money.js`): `none` keeps the value,
`bankers`/`conventional` round to the requested number of decimal
places. -/
def applyRound (o : RoundOpt) (d : Dec) : Dec :=
  match o with
  | .none => d
  | .bankers dp => ⟨rheFrac (d.num * 10 ^ dp) d.exp, dp⟩
  | .conventional dp => ⟨rhaFrac (d.num * 10 ^ dp) d.exp, dp⟩

/-- `Amount.addTo`: exact sum, decimal.js precision rounding, then the
optional rounding directive (`Amount.#fromDecimal`). -/
def addA (a b : Dec) (o : RoundOpt) : Dec := applyRound o (decR40 (Dec.add a b))

/-- `Amount.subtractFrom`. -/
def subA (a b : Dec) (o : RoundOpt) : Dec := applyRound o (decR40 (Dec.sub a b))

/-- `Amount.multiplyBy`. -/
def mulA (a b : Dec) (o : RoundOpt) : Dec := applyRound o (decR40 (Dec.mul a b))

/-- `Amount.divideBy`: fails with `DivisionByZero` when the divisor is the
zero amount, otherwise the exact quotient under precision rounding and the
optional rounding directive. -/
def divA (a b : Dec) (o : RoundOpt) : Except Err Dec :=
  if Dec.eqv b Dec.zero then .error .divisionByZero
  else .ok (applyRound o (roundSig40 (a.num * 10 ^ b.exp) (b.num * 10 ^ a.exp)))

/-- Largest mantissa `m` in the search interval satisfying
`(2 m - 1) ^ n * B ≤ 2 ^ n * A`, i.e. `m - 1/2 ≤ (A / B) ^ (1 / n)`; found
by binary search with explicit fuel. -/
def rootSearch (n A B : ℕ) : ℕ → ℕ → ℕ → ℕ
  | 0, lo, _ => lo
  | f + 1, lo, hi =>
    if hi ≤ lo + 1 then lo
    else
      let mid := (lo + hi) / 2
      if (2 * mid - 1) ^ n * B ≤ 2 ^ n * A then rootSearch n A B f mid hi
      else rootSearch n A B f lo mid

/-- The `n`-th root of a positive decimal fraction, rounded to 40
significant decimal digits (half away from zero).  This models
`Decimal.prototype.pow(x, 1/n)` as the correctly rounded real root; a root
of `1` is `1` exactly.  The engine only relies on the exact value of this
function at radicand `1` (zero-APY accounts). -/
def decNthRoot40 (n : ℕ) (d : Dec) : Dec :=
  if Dec.eqv d Dec.one then Dec.one
  else if d.num ≤ 0 ∨ n = 0 then Dec.zero
  else
    let a := d.num.natAbs
    let e := (ratIlog10 a (10 ^ d.exp)).ediv n
    let s := 39 - e
    let A : ℕ := if 0 ≤ s then a * 10 ^ (n * s.toNat) else a
    let B : ℕ := if 0 ≤ s then 10 ^ d.exp else 10 ^ d.exp * 10 ^ (n * (-s).toNat)
    let m : ℤ := (rootSearch n A B 150 (10 ^ 39) (10 ^ 40 + 1) : ℤ)
    if 0 ≤ s then ⟨m, s.toNat⟩ else ⟨m * 10 ^ (-s).toNat, 0⟩

/-- `Amount.pow`: rejects negative exponents (the source also rejects
non-integer ones; the exponent is modelled as an integer); exponent `0`
returns a fresh amount `1`; otherwise the decimal.js power, modelled as the
exact power under precision rounding. -/
def powA (a : Dec) (n : ℤ) (o : RoundOpt) : Except Err Dec :=
  if n < 0 then .error .invalidExponent
  else if n = 0 then .ok Dec.one
  else .ok (applyRound o (decR40 ⟨a.num ^ n.toNat, a.exp * n.toNat⟩))

/-- `Amount.nthRoot`: requires a positive integer root, rejects negative
radicands; root `1` returns the receiver itself; radicand `0` returns a
fresh zero; otherwise `Decimal.pow(x, 1/n)` under the optional rounding
directive. -/
def nthRootA (a : Dec) (n : ℤ) (o : RoundOpt) : Except Err Dec :=
  if n ≤ 0 then .error .invalidExponent
  else if Dec.ltv a Dec.zero then .error .negativeRadicand
  else if n = 1 then .ok a
  else if Dec.eqv a Dec.zero then .ok Dec.zero
  else .ok (applyRound o (decNthRoot40 n.toNat a))

/-! ### Calendar primitives (`src/math/calendar.js`)

JS `Date` values normalized to UTC midnight are modelled as
proleptic-Gregorian year/month/day triples, the calendar ECMA-262
specifies.  All integer division below is Euclidean division by positive
constants, i.e. floor division, matching the ECMA-262 `floor`-based day
number computations. -/

/-- A UTC-midnight-normalized calendar date: year, month (`1..12`) and
day-of-month. -/
structure CDate where
  year : ℤ
  month : ℤ
  day : ℤ
  deriving DecidableEq, Repr

/-- Gregorian leap year test. -/
def isLeapYear (y : ℤ) : Prop := (y % 4 = 0 ∧ ¬ y % 100 = 0) ∨ y % 400 = 0

instance (y : ℤ) : Decidable (isLeapYear y) := by unfold isLeapYear; infer_instance

/-- Number of days in month `m` of year `y` (months `1..12`). -/
def daysInMonth (y m : ℤ) : ℤ :=
  if m = 2 then (if isLeapYear y then 29 else 28)
  else if m = 4 ∨ m = 6 ∨ m = 9 ∨ m = 11 then 30
  else 31

/-- A structurally valid calendar date. -/
def validDate (t : CDate) : Prop :=
  1 ≤ t.month ∧ t.month ≤ 12 ∧ 1 ≤ t.day ∧ t.day ≤ daysInMonth t.year t.month

instance (t : CDate) : Decidable (validDate t) := by unfold validDate; infer_instance

/-- `addDays(date, 1)` on a valid normalized date: the next calendar day.
The source adds `MS_PER_DAY` to the epoch milliseconds; on the triple
representation this is the calendar successor. -/
def dateSucc (t : CDate) : CDate :=
  if t.day < daysInMonth t.year t.month then ⟨t.year, t.month, t.day + 1⟩
  else if t.month < 12 then ⟨t.year, t.month + 1, 1⟩
  else ⟨t.year + 1, 1, 1⟩

/-- `isSameDay`: both dates normalized, compared component-wise. -/
def isSameDay (a b : CDate) : Prop := a.year = b.year ∧ a.month = b.month ∧ a.day = b.day

instance (a b : CDate) : Decidable (isSameDay a b) := by unfold isSameDay; infer_instance

/-- `lastDayOfMonth(date)`: `Date.UTC(year, month + 1, 0)`, the last day of
the date's month. -/
def lastDayOfMonth (t : CDate) : CDate := ⟨t.year, t.month, daysInMonth t.year t.month⟩

/-- `addMonthsPreserveDay(date, n)`: anchor at day 1 of the target month
(`Date.UTC` normalizes an out-of-range 0-based month index `mi` to year
`year + ⌊mi / 12⌋`, month `mi mod 12`), then clamp the preserved
day-of-month to the length of the target month. -/
def addMonthsPreserveDay (t : CDate) (n : ℤ) : CDate :=
  let mi := t.month - 1 + n
  let y := t.year + mi / 12
  let m := mi % 12 + 1
  let lastDate := daysInMonth y m
  let safeDay := min t.day lastDate
  ⟨y, m, safeDay⟩

/-- Days since the civil epoch 1970-01-01 of a date (the value of
`date.getTime() / MS_PER_DAY` for a UTC-midnight-normalized JS date),
computed by the standard era decomposition of the proleptic Gregorian
calendar. -/
def daysFromCivil (t : CDate) : ℤ :=
  let y := if t.month ≤ 2 then t.year - 1 else t.year
  let era := y / 400
  let yoe := y - era * 400
  let mp := (t.month + 9) % 12
  let doy := (153 * mp + 2) / 5 + t.day - 1
  let doe := yoe * 365 + yoe / 4 - yoe / 100 + doy
  era * 146097 + doe - 719468

/-- `daysBetween(start, end)`: signed day count between two normalized
dates (exact, the `Math.round` in the source is the identity here). -/
def daysBetween (a b : CDate) : ℤ := daysFromCivil b - daysFromCivil a

/-! ### Loan account (`src/math/loan.js`) -/

/-- ASCII lowercasing of a character (the engine only compares ASCII
keyword strings). -/
def lowerChar (c : Char) : Char :=
  if c.toNat < 91 ∧ 64 < c.toNat then Char.ofNat (c.toNat + 32) else c

/-- JS `String.prototype.toLowerCase` on the ASCII keyword strings the
engine compares. -/
def lowerStr (s : List Char) : List Char := s.map lowerChar

/-- ASCII uppercasing of a character. -/
def upperChar (c : Char) : Char :=
  if c.toNat < 123 ∧ 96 < c.toNat then Char.ofNat (c.toNat - 32) else c

/-- JS `String.prototype.toUpperCase` on the ASCII keyword strings the
engine compares. -/
def upperStr (s : List Char) : List Char := s.map upperChar

/-- Total division helper for call sites whose divisor is a nonzero
constant (`divideBy` cannot take its `DivisionByZero` branch there). -/
def divANZ (a b : Dec) (o : RoundOpt) : Dec :=
  applyRound o (roundSig40 (a.num * 10 ^ b.exp) (b.num * 10 ^ a.exp))

/-- `roundDownToCents(value)` in `loan.js`: lossy `toDecimal()` (exact
here), `Math.floor(value * 100) / 100`, re-wrapped as an amount. -/
def roundDownToCents (v : Dec) : Dec := ⟨v.num * 100 / (10 : ℤ) ^ v.exp, 2⟩

/-- An immutable loan account: period count, nominal annual rate,
principal, and the derived periodic rate (annual rate divided by 12,
computed once in the constructor). -/
structure LoanAccount where
  periodCount : ℤ
  nominalAnnualRate : Dec
  principal : Dec
  periodicRate : Dec
  deriving DecidableEq, Repr

/-- The `loan.js` `Account` constructor: validates the period count
(positive integer), principal (non-negative), period type (only `MONTH`
after uppercasing) and rate (finite non-negative number), then derives the
periodic rate. -/
def mkLoan (periodCount : Dec) (periodType : List Char) (rate : Dec) (principal : Dec) :
    Except Err LoanAccount :=
  if ¬ Dec.isInt periodCount ∨ periodCount.toInt ≤ 0 then .error .invalidPeriodCount
  else if Dec.ltv principal Dec.zero then .error .invalidPrincipal
  else if ¬ upperStr periodType = "MONTH".data then .error .unsupportedPeriodType
  else if Dec.ltv rate Dec.zero then .error .invalidRate
  else .ok ⟨periodCount.toInt, rate, principal, divANZ rate ⟨12, 0⟩ .none⟩

/-- `Account.#calculatePaymentAmount`: zero principal pays zero; a
zero periodic rate pays the principal divided by the period count,
truncated down to the cent; otherwise the fixed-payment annuity formula in
`Amount` arithmetic. -/
def calculatePaymentAmount (L : LoanAccount) : Except Err Dec :=
  if Dec.eqv L.principal Dec.zero then .ok Dec.zero
  else if Dec.eqv L.periodicRate Dec.zero then do
    let basePayment ← divA L.principal ⟨L.periodCount, 0⟩ .none
    .ok (roundDownToCents basePayment)
  else do
    let ratePlusOne := addA L.periodicRate Dec.one .none
    let growthFactor ← powA ratePlusOne L.periodCount .none
    let numerator := mulA (mulA L.principal L.periodicRate .none) growthFactor .none
    let denominator := subA growthFactor Dec.one .none
    divA numerator denominator .none

/-- `Account.payment()` (the memoization cache is semantically
transparent). -/
def payment (L : LoanAccount) : Except Err Dec := calculatePaymentAmount L

/-- `Account.totalInterest()`: zero for a zero periodic rate; otherwise
`payment * periodCount - principal`, zero-clamped, floored down to cents
unless the floored-away fraction is at least 0.0095 dollars, in which case
the raw figure is kept.  (The source compares `fractionalPenny` after a
lossy `toDecimal()` double conversion; the comparison is modelled as the
exact value comparison.) -/
def totalInterest (L : LoanAccount) : Except Err Dec :=
  if Dec.eqv L.periodicRate Dec.zero then .ok Dec.zero
  else do
    let pay ← payment L
    let totalPaidAmount := mulA pay ⟨L.periodCount, 0⟩ .none
    let rawInterestAmount := subA totalPaidAmount L.principal .none
    if Dec.ltv rawInterestAmount Dec.zero ∨ Dec.eqv rawInterestAmount Dec.zero then .ok Dec.zero
    else
      let flooredInterest := roundDownToCents rawInterestAmount
      if ¬ Dec.ltv (Dec.sub rawInterestAmount flooredInterest) ⟨95, 4⟩ then .ok rawInterestAmount
      else .ok flooredInterest

/-! ### Deposit account (`src/accounts/deposit.js`) -/

/-- A deposit account: mutable balance, immutable APY, the derived daily
rate `(1 + APY) ^ (1 / 365) - 1`, the pending (unposted) interest
accumulator of the monthly-posting mode, and the cumulative posted
interest counter. -/
structure DAccount where
  balance : Dec
  apy : Dec
  dailyRate : Dec
  pendingInterest : Dec
  interestAccrued : Dec
  deriving DecidableEq, Repr

/-- The deposit `Account` constructor: opening balance and APY (the JS
defaults are zero), pending and accrued interest start at zero, daily rate
`one.addTo(apy).nthRoot(365).subtractFrom(one)`. -/
def mkDeposit (openingBalance apy : Dec) : Except Err DAccount := do
  let root ← nthRootA (addA Dec.one apy .none) 365 .none
  .ok ⟨openingBalance, apy, subA root Dec.one .none, Dec.zero, Dec.zero⟩

/-- Core of `Account.withdraw` once the argument has been converted to an
amount: reject negative withdrawals, otherwise subtract (overdrafts are
allowed). -/
def withdrawAmt (a : DAccount) (w : Dec) : Except Err DAccount :=
  if Dec.ltv w Dec.zero then .error .invalidWithdrawal
  else .ok {a with balance := subA a.balance w .none}

/-- `Account.withdraw(withdrawal)`: the argument first passes through the
`Amount` constructor, which rejects non-finite numbers. -/
def withdraw (a : DAccount) (w : JSNum) : Except Err DAccount :=
  match w with
  | .nonfinite => .error .invalidValue
  | .num d => withdrawAmt a d

/-- The day loop of `accrueForDays`: each of the `n` iterations adds
`(balance + accrued) * dailyRate` to the accrued-interest accumulator. -/
def accrueLoop (a : DAccount) : ℕ → Dec
  | 0 => Dec.zero
  | n + 1 =>
    let acc := accrueLoop a n
    addA acc (mulA (addA a.balance acc .none) a.dailyRate .none) .none

/-- The posting tail of `accrueForDays`: the updated balance is
`balance.addTo(accrued, bankers 2)`, and the difference between the
rounded updated balance and the old balance is what lands in the
`interestAccrued` counter. -/
def postAccrual (a : DAccount) (acc : Dec) : DAccount :=
  let updatedBalance := addA a.balance acc (.bankers 2)
  let postedInterest := subA updatedBalance a.balance .none
  {a with balance := updatedBalance,
          interestAccrued := addA a.interestAccrued postedInterest .none}

/-- `Account.accrueForDays(days)`: rejects non-integer (including
non-finite) and negative day counts with the day-count error; zero days is
a no-op; otherwise compound daily and post once with bankers rounding. -/
def accrueForDays (a : DAccount) (days : JSNum) : Except Err DAccount :=
  match days with
  | .nonfinite => .error .invalidDayCount
  | .num d =>
    if ¬ Dec.isInt d then .error .invalidDayCount
    else if Dec.ltv d Dec.zero then .error .invalidDayCount
    else if Dec.eqv d Dec.zero then .ok a
    else .ok (postAccrual a (accrueLoop a d.toInt.toNat))

/-- One simulated day of `accrueForDaysWithMonthlyPosting`: daily interest
on the effective balance (posted balance plus pending interest) joins the
pending accumulator; if the day is the last day of its month the pending
accumulator is posted with bankers rounding to cents and reset. -/
def mpStep (a : DAccount) (t : CDate) : DAccount :=
  let effectiveBalance := addA a.balance a.pendingInterest .none
  let dailyInterest := mulA effectiveBalance a.dailyRate .none
  let pending1 := addA a.pendingInterest dailyInterest .none
  if isSameDay t (lastDayOfMonth t) then
    let postedInterest := addA pending1 Dec.zero (.bankers 2)
    { a with balance := addA a.balance postedInterest .none,
             interestAccrued := addA a.interestAccrued postedInterest .none,
             pendingInterest := Dec.zero }
  else { a with pendingInterest := pending1 }

/-- The day-by-day walk of `accrueForDaysWithMonthlyPosting`. -/
def mpLoop : DAccount → CDate → ℕ → DAccount
  | a, _, 0 => a
  | a, t, n + 1 => mpLoop (mpStep a t) (dateSucc t) n

/-- `Account.accrueForDaysWithMonthlyPosting(days, startDate)`: same
day-count validation as `accrueForDays`, then the day-by-day walk from the
normalized start date. -/
def accrueForDaysWithMonthlyPosting (a : DAccount) (days : JSNum) (startDate : CDate) :
    Except Err DAccount :=
  match days with
  | .nonfinite => .error .invalidDayCount
  | .num d =>
    if ¬ Dec.isInt d then .error .invalidDayCount
    else if Dec.ltv d Dec.zero then .error .invalidDayCount
    else if Dec.eqv d Dec.zero then .ok a
    else .ok (mpLoop a startDate d.toInt.toNat)

/-! ### Credit card account (`src/accounts/credit-card.js`) -/

/-- A credit card account: APR, rewards rate, and the derived daily rate
`APR / 365`; no running balance. -/
structure CCAccount where
  apr : Dec
  rewardsRate : Dec
  dailyRate : Dec
  deriving DecidableEq, Repr

/-- The credit card `Account` constructor: non-negative APR and rewards
rate, daily rate `APR / 365`. -/
def mkCC (apr rewardsRate : Dec) : Except Err CCAccount :=
  if Dec.ltv apr Dec.zero then .error .invalidRate
  else if Dec.ltv rewardsRate Dec.zero then .error .invalidRate
  else .ok ⟨apr, rewardsRate, divANZ apr ⟨365, 0⟩ .none⟩

/-- `calculateRewards(purchaseAmount)`: non-negative purchase, rewards
bankers-rounded to cents. -/
def calculateRewards (c : CCAccount) (purchaseAmount : Dec) : Except Err Dec :=
  if Dec.ltv purchaseAmount Dec.zero then .error .invalidAmount
  else .ok (mulA purchaseAmount c.rewardsRate (.bankers 2))

/-- The compounding loop of `interestForDays`. -/
def ccLoop (c : CCAccount) : ℕ → Dec → Dec
  | 0, b => b
  | n + 1, b => ccLoop c n (addA b (mulA b c.dailyRate .none) .none)

/-- `interestForDays(balance, days)`: non-negative integer day count and
non-negative balance; zero balance, zero days or zero daily rate
short-circuit to zero; otherwise daily compounding with the accrued delta
bankers-rounded to cents. -/
def interestForDays (c : CCAccount) (balance : Dec) (days : ℤ) : Except Err Dec :=
  if days < 0 then .error .invalidDayCount
  else if Dec.ltv balance Dec.zero then .error .invalidAmount
  else if Dec.eqv balance Dec.zero ∨ days = 0 ∨ Dec.eqv c.dailyRate Dec.zero then .ok Dec.zero
  else
    let accruedBalance := ccLoop c days.toNat balance
    .ok (addA (subA accruedBalance balance .none) Dec.zero (.bankers 2))

/-! ### Tradeoff simulator (`src/tradeoff.js`) -/

/-- The `mode` argument of `simulateScenario`: a JS string or any
non-string value. -/
inductive ModeInput where
  | str (s : List Char)
  | nonString
  deriving DecidableEq, Repr

/-- Mode dispatch of `simulateScenario`: a non-string normalizes to
`idealized`; a string selects real-world mode exactly when its lowercasing
is `real` or `real-world`. -/
def isRealMode (m : ModeInput) : Prop :=
  match m with
  | .str s => lowerStr s = "real".data ∨ lowerStr s = "real-world".data
  | .nonString => False

instance (m : ModeInput) : Decidable (isRealMode m) := by
  unfold isRealMode; cases m <;> infer_instance

/-- The aggregate returned by `simulateScenario`: the three account
objects in their final states, the credit card figures, and the net value
(the deposit account's terminal balance). -/
structure SimResult where
  loanAccount : LoanAccount
  depositAccount : DAccount
  creditCardAccount : CCAccount
  creditCardRewards : Dec
  creditCardInterest : Dec
  net : Dec
  deriving DecidableEq, Repr

/-- The per-period loop of `#simulateIdealized`: accrue for the fixed day
count, then withdraw the level payment. -/
def idealLoop (pay : Dec) (daysPerPeriod : ℤ) : DAccount → ℕ → Except Err DAccount
  | d, 0 => .ok d
  | d, k + 1 => do
    let d1 ← accrueForDays d (.num ⟨daysPerPeriod, 0⟩)
    let d2 ← withdrawAmt d1 pay
    idealLoop pay daysPerPeriod d2 k

/-- `TradeoffComparison.#simulateIdealized`. -/
def simulateIdealized (dep : DAccount) (loan : LoanAccount) (daysPerPeriod : ℤ) :
    Except Err DAccount := do
  let pay ← payment loan
  idealLoop pay daysPerPeriod dep loan.periodCount.toNat

/-- The monthly due-date schedule of `#buildPaymentSchedule`. -/
def buildPaymentSchedule (startDate : CDate) (periodCount : ℕ) : List CDate :=
  (List.range periodCount).map fun i : ℕ => addMonthsPreserveDay startDate ((i : ℤ) + 1)

/-- The per-due-date loop of `#simulateRealWorld`: days until the due
date must be non-negative, accrual is monthly-posting from the anchor,
then the payment is withdrawn and the anchor advances. -/
def rwLoop (pay : Dec) : DAccount → CDate → List CDate → Except Err DAccount
  | d, _, [] => .ok d
  | d, anchor, due :: rest =>
    let daysUntilDue := daysBetween anchor due
    if daysUntilDue < 0 then .error .invalidSchedule
    else do
      let d1 ← accrueForDaysWithMonthlyPosting d (.num ⟨daysUntilDue, 0⟩) anchor
      let d2 ← withdrawAmt d1 pay
      rwLoop pay d2 due rest

/-- `TradeoffComparison.#simulateRealWorld`: requires a start date;
anchors at its normalization and processes the true monthly due dates. -/
def simulateRealWorld (dep : DAccount) (loan : LoanAccount) (startDate : Option CDate) :
    Except Err DAccount :=
  match startDate with
  | none => .error .missingStartDate
  | some t0 => do
    let pay ← payment loan
    rwLoop pay dep t0 (buildPaymentSchedule t0 loan.periodCount.toNat)

/-- The period length `#simulateIdealized` uses: the instance's configured
`periodDays` when it is a JS integer, the 31-day month constant
(`financialCalendar.daysInMonth`) otherwise. -/
def effectivePeriodDays (periodDays : JSNum) : ℤ :=
  match periodDays with
  | .num d => if Dec.isInt d then d.toInt else 31
  | .nonfinite => 31

/-- `TradeoffComparison.simulateScenario`: builds the loan, deposit and
credit card accounts, computes the credit card figures, dispatches on the
normalized mode, and returns the accounts with the deposit terminal
balance as the net value.  `periodDays` is the instance's configured
period length (constructor default 31), used when it is an integer and
replaced by the 31-day month constant otherwise. -/
def simulateScenario (periodDays : JSNum) (principal : Dec) (periodCount : Dec)
    (loanRate : Dec) (depositApy : Dec) (ccRewardsRate ccRate : Dec)
    (mode : ModeInput) (startDate : Option CDate) : Except Err SimResult := do
  let loanAccount ← mkLoan periodCount "MONTH".data loanRate principal
  let depositAccount ← mkDeposit principal depositApy
  let creditCardAccount ← mkCC ccRate ccRewardsRate
  let creditCardRewards ← calculateRewards creditCardAccount principal
  let creditCardInterest ← interestForDays creditCardAccount principal
    (effectivePeriodDays periodDays)
  let depFinal ←
    if isRealMode mode then simulateRealWorld depositAccount loanAccount startDate
    else simulateIdealized depositAccount loanAccount (effectivePeriodDays periodDays)
  .ok { loanAccount := loanAccount, depositAccount := depFinal,
        creditCardAccount := creditCardAccount, creditCardRewards := creditCardRewards,
        creditCardInterest := creditCardInterest, net := depFinal.balance }

/-! ### Basic value lemmas for `Dec` -/

namespace Dec

lemma toRat_zero : (Dec.zero).toRat = 0 := by simp [toRat, zero]

lemma toRat_one : (Dec.one).toRat = 1 := by simp [toRat, one]

lemma pow10_pos (k : ℕ) : (0 : ℚ) < 10 ^ k := by positivity

lemma toRat_mk (n : ℤ) (k : ℕ) : (Dec.mk n k).toRat = (n : ℚ) / 10 ^ k := rfl

lemma toRat_add (a b : Dec) : (Dec.add a b).toRat = a.toRat + b.toRat := by
  unfold add toRat
  rw [div_add_div _ _ (pow10_pos a.exp).ne' (pow10_pos b.exp).ne', pow_add]
  push_cast
  ring_nf

lemma toRat_sub (a b : Dec) : (Dec.sub a b).toRat = a.toRat - b.toRat := by
  unfold sub toRat
  rw [div_sub_div _ _ (pow10_pos a.exp).ne' (pow10_pos b.exp).ne', pow_add]
  push_cast
  ring_nf

lemma toRat_mul (a b : Dec) : (Dec.mul a b).toRat = a.toRat * b.toRat := by
  unfold mul toRat
  rw [div_mul_div_comm, pow_add]
  push_cast
  ring_nf

lemma eqv_iff (a b : Dec) : eqv a b ↔ a.toRat = b.toRat := by
  unfold eqv toRat
  rw [div_eq_div_iff (pow10_pos a.exp).ne' (pow10_pos b.exp).ne']
  constructor
  · intro h; exact_mod_cast congrArg (fun z : ℤ => (z : ℚ)) h
  · intro h; exact_mod_cast h

lemma ltv_iff (a b : Dec) : ltv a b ↔ a.toRat < b.toRat := by
  unfold ltv toRat
  rw [div_lt_div_iff (pow10_pos a.exp) (pow10_pos b.exp)]
  constructor
  · intro h; exact_mod_cast h
  · intro h; exact_mod_cast h

lemma eqv_zero_iff (a : Dec) : eqv a zero ↔ a.toRat = 0 := by
  rw [eqv_iff, toRat_zero]

lemma ltv_zero_iff (a : Dec) : ltv a zero ↔ a.toRat < 0 := by
  rw [ltv_iff, toRat_zero]

lemma toRat_eq_zero_iff (a : Dec) : a.toRat = 0 ↔ a.num = 0 := by
  unfold toRat
  rw [div_eq_zero_iff]
  have := (pow10_pos a.exp).ne'
  simp [this]

lemma add_zero_eq (a : Dec) : Dec.add a Dec.zero = a := by
  unfold add zero
  cases a with
  | mk n k => simp

end Dec

/-! ### Digit counts and the floor logarithm -/

lemma digitsFuel_spec : ∀ f n : ℕ, 1 ≤ n → n ≤ f →
    10 ^ (digitsFuel f n - 1) ≤ n ∧ n < 10 ^ (digitsFuel f n) := by
  intro f
  induction f with
  | zero => intro n h1 h2; omega
  | succ f ih =>
    intro n h1 h2
    rw [digitsFuel]
    by_cases hn : n < 10
    · simp [hn]; omega
    · simp only [hn, if_false]
      have hd1 : 1 ≤ n / 10 := by omega
      have hd2 : n / 10 ≤ f := by omega
      obtain ⟨lo, hi⟩ := ih (n / 10) hd1 hd2
      have hpos : 1 ≤ digitsFuel f (n / 10) := by
        by_contra h
        have : digitsFuel f (n / 10) = 0 := by omega
        rw [this] at hi
        omega
      constructor
      · have : 10 ^ (digitsFuel f (n / 10) + 1 - 1) = 10 * 10 ^ (digitsFuel f (n / 10) - 1) := by
          rw [Nat.add_sub_cancel]
          conv_lhs => rw [← Nat.sub_add_cancel hpos]
          rw [pow_succ]
          ring
        rw [this]
        calc 10 * 10 ^ (digitsFuel f (n / 10) - 1) ≤ 10 * (n / 10) := by
              exact Nat.mul_le_mul_left 10 lo
          _ ≤ n := Nat.mul_div_le n 10
      · have : 10 ^ (digitsFuel f (n / 10) + 1) = 10 * 10 ^ (digitsFuel f (n / 10)) := by
          rw [pow_succ]; ring
        rw [this]
        have h9 : n < 10 * (n / 10) + 10 := by omega
        calc n < 10 * (n / 10) + 10 := h9
          _ ≤ 10 * 10 ^ (digitsFuel f (n / 10)) := by
              have : n / 10 + 1 ≤ 10 ^ (digitsFuel f (n / 10)) := hi
              omega

lemma digits10_spec (n : ℕ) (h : 1 ≤ n) :
    10 ^ (digits10 n - 1) ≤ n ∧ n < 10 ^ (digits10 n) :=
  digitsFuel_spec n n h le_rfl

lemma digits10_pos (n : ℕ) (h : 1 ≤ n) : 1 ≤ digits10 n := by
  obtain ⟨_, hi⟩ := digits10_spec n h
  by_contra hc
  have : digits10 n = 0 := by omega
  rw [this] at hi
  omega

lemma zpow_toNat (e : ℤ) (he : 0 ≤ e) : (10 : ℚ) ^ e = ((10 ^ e.toNat : ℕ) : ℚ) := by
  rw [← Int.toNat_of_nonneg he, zpow_natCast]
  push_cast
  rfl

lemma ratIlog10_spec (a b : ℕ) (ha : 1 ≤ a) (hb : 1 ≤ b) :
    (10 : ℚ) ^ ratIlog10 a b ≤ (a : ℚ) / b ∧ (a : ℚ) / b < (10 : ℚ) ^ (ratIlog10 a b + 1) := by
  have hbQ : (0 : ℚ) < (b : ℚ) := by exact_mod_cast hb
  have haQ : (0 : ℚ) < (a : ℚ) := by exact_mod_cast ha
  set da := digits10 a with hda
  set db := digits10 b with hdb
  have hda1 : 1 ≤ da := digits10_pos a ha
  have hdb1 : 1 ≤ db := digits10_pos b hb
  obtain ⟨la, ua⟩ := digits10_spec a ha
  obtain ⟨lb, ub⟩ := digits10_spec b hb
  -- digit bounds, lifted to ℚ with integer exponents
  have tc : ∀ k : ℕ, ((10 ^ k : ℕ) : ℚ) = (10 : ℚ) ^ (k : ℤ) := by
    intro k
    rw [zpow_natCast]
    push_cast
    rfl
  have tsub : ∀ k : ℕ, 1 ≤ k → (10 : ℚ) ^ ((k : ℤ) - 1) = ((10 ^ (k - 1) : ℕ) : ℚ) := by
    intro k hk
    rw [tc (k - 1)]
    congr 1
    omega
  have laQ : (10 : ℚ) ^ ((da : ℤ) - 1) ≤ (a : ℚ) := by
    rw [tsub da hda1]; exact_mod_cast la
  have uaQ : (a : ℚ) < (10 : ℚ) ^ (da : ℤ) := by rw [← tc da]; exact_mod_cast ua
  have lbQ : (10 : ℚ) ^ ((db : ℤ) - 1) ≤ (b : ℚ) := by
    rw [tsub db hdb1]; exact_mod_cast lb
  have ubQ : (b : ℚ) < (10 : ℚ) ^ (db : ℤ) := by rw [← tc db]; exact_mod_cast ub
  have hzp : ∀ e : ℤ, (0 : ℚ) < (10 : ℚ) ^ e := fun e => zpow_pos (by norm_num) e
  set e0 : ℤ := (da : ℤ) - db with he0
  -- upper digit estimate a / b < 10 ^ (e0 + 1)
  have upper : (a : ℚ) / b < (10 : ℚ) ^ (e0 + 1) := by
    have h1 : (a : ℚ) / b < (10 : ℚ) ^ (da : ℤ) / (10 : ℚ) ^ ((db : ℤ) - 1) := by
      rw [div_lt_div_iff₀ hbQ (hzp _)]
      calc (a : ℚ) * (10 : ℚ) ^ ((db : ℤ) - 1)
          < (10 : ℚ) ^ (da : ℤ) * (10 : ℚ) ^ ((db : ℤ) - 1) := by
            exact mul_lt_mul_of_pos_right uaQ (hzp _)
        _ ≤ (10 : ℚ) ^ (da : ℤ) * (b : ℚ) := by
            exact mul_le_mul_of_nonneg_left lbQ (hzp _).le
    calc (a : ℚ) / b < (10 : ℚ) ^ (da : ℤ) / (10 : ℚ) ^ ((db : ℤ) - 1) := h1
      _ = (10 : ℚ) ^ (e0 + 1) := by
          rw [← zpow_sub₀ (by norm_num : (10 : ℚ) ≠ 0)]
          congr 1
          omega
  -- lower digit estimate 10 ^ (e0 - 1) ≤ a / b
  have lower : (10 : ℚ) ^ (e0 - 1) ≤ (a : ℚ) / b := by
    have h1 : (10 : ℚ) ^ ((da : ℤ) - 1) / (10 : ℚ) ^ (db : ℤ) ≤ (a : ℚ) / b := by
      rw [div_le_div_iff₀ (hzp _) hbQ]
      calc (10 : ℚ) ^ ((da : ℤ) - 1) * (b : ℚ)
          ≤ (a : ℚ) * (b : ℚ) := by exact mul_le_mul_of_nonneg_right laQ hbQ.le
        _ ≤ (a : ℚ) * (10 : ℚ) ^ (db : ℤ) := by
            exact mul_le_mul_of_nonneg_left ubQ.le haQ.le
    calc (10 : ℚ) ^ (e0 - 1)
        = (10 : ℚ) ^ ((da : ℤ) - 1) / (10 : ℚ) ^ (db : ℤ) := by
          rw [← zpow_sub₀ (by norm_num : (10 : ℚ) ≠ 0)]
          congr 1
          omega
      _ ≤ (a : ℚ) / b := h1
  -- the comparison branch decides between e0 and e0 - 1
  have okPos : 0 ≤ e0 → ((b * 10 ^ e0.toNat ≤ a) ↔ (10 : ℚ) ^ e0 ≤ (a : ℚ) / b) := by
    intro hs
    have hz : (10 : ℚ) ^ e0 = ((10 ^ e0.toNat : ℕ) : ℚ) := by
      rw [tc]
      congr 1
      omega
    rw [hz, le_div_iff₀ hbQ]
    constructor
    · intro h
      rw [Nat.mul_comm] at h
      have h2 : ((10 ^ e0.toNat * b : ℕ) : ℚ) ≤ (a : ℚ) := by exact_mod_cast h
      calc ((10 ^ e0.toNat : ℕ) : ℚ) * b = ((10 ^ e0.toNat * b : ℕ) : ℚ) := by push_cast; ring
        _ ≤ (a : ℚ) := h2
    · intro h
      have h2 : ((10 ^ e0.toNat * b : ℕ) : ℚ) ≤ (a : ℚ) := by
        calc ((10 ^ e0.toNat * b : ℕ) : ℚ) = ((10 ^ e0.toNat : ℕ) : ℚ) * b := by push_cast; ring
          _ ≤ (a : ℚ) := h
      have h3 : 10 ^ e0.toNat * b ≤ a := by exact_mod_cast h2
      rw [Nat.mul_comm]
      exact h3
  have okNeg : ¬ 0 ≤ e0 → ((b ≤ a * 10 ^ (-e0).toNat) ↔ (10 : ℚ) ^ e0 ≤ (a : ℚ) / b) := by
    intro hs
    have hk : (10 : ℚ) ^ e0 = 1 / ((10 ^ (-e0).toNat : ℕ) : ℚ) := by
      rw [tc, one_div, ← zpow_neg]
      congr 1
      omega
    have hkpos : (0 : ℚ) < ((10 ^ (-e0).toNat : ℕ) : ℚ) := by positivity
    rw [hk, div_le_div_iff₀ hkpos hbQ]
    constructor
    · intro h
      calc (1 : ℚ) * b = (b : ℚ) := by ring
        _ ≤ ((a * 10 ^ (-e0).toNat : ℕ) : ℚ) := by exact_mod_cast h
        _ = (a : ℚ) * ((10 ^ (-e0).toNat : ℕ) : ℚ) := by push_cast; ring
    · intro h
      have h2 : (b : ℚ) ≤ ((a * 10 ^ (-e0).toNat : ℕ) : ℚ) := by
        calc (b : ℚ) = 1 * (b : ℚ) := by ring
          _ ≤ (a : ℚ) * ((10 ^ (-e0).toNat : ℕ) : ℚ) := h
          _ = ((a * 10 ^ (-e0).toNat : ℕ) : ℚ) := by push_cast; ring
      exact_mod_cast h2
  unfold ratIlog10
  simp only [← hda, ← hdb, ← he0]
  by_cases hs : 0 ≤ e0
  · rw [if_pos hs]
    by_cases hok : b * 10 ^ e0.toNat ≤ a
    · rw [if_pos hok]
      exact ⟨(okPos hs).mp hok, upper⟩
    · rw [if_neg hok]
      refine ⟨lower, ?_⟩
      have hlt : (a : ℚ) / b < (10 : ℚ) ^ e0 := by
        by_contra hcontra
        push_neg at hcontra
        exact hok ((okPos hs).mpr hcontra)
      calc (a : ℚ) / b < (10 : ℚ) ^ e0 := hlt
        _ = (10 : ℚ) ^ (e0 - 1 + 1) := by congr 1; ring
  · rw [if_neg hs]
    by_cases hok : b ≤ a * 10 ^ (-e0).toNat
    · rw [if_pos hok]
      exact ⟨(okNeg hs).mp hok, upper⟩
    · rw [if_neg hok]
      refine ⟨lower, ?_⟩
      have hlt : (a : ℚ) / b < (10 : ℚ) ^ e0 := by
        by_contra hcontra
        push_neg at hcontra
        exact hok ((okNeg hs).mpr hcontra)
      calc (a : ℚ) / b < (10 : ℚ) ^ e0 := hlt
        _ = (10 : ℚ) ^ (e0 - 1 + 1) := by congr 1; ring

lemma ratIlog10_unique (a b : ℕ) (ha : 1 ≤ a) (hb : 1 ≤ b) (t : ℤ)
    (h1 : (10 : ℚ) ^ t ≤ (a : ℚ) / b) (h2 : (a : ℚ) / b < (10 : ℚ) ^ (t + 1)) :
    ratIlog10 a b = t := by
  obtain ⟨l, u⟩ := ratIlog10_spec a b ha hb
  by_contra hne
  rcases lt_or_gt_of_ne hne with hlt | hgt
  · have : (10 : ℚ) ^ (ratIlog10 a b + 1) ≤ (10 : ℚ) ^ t :=
      zpow_le_zpow_right₀ (by norm_num) (by omega)
    linarith
  · have : (10 : ℚ) ^ (t + 1) ≤ (10 : ℚ) ^ ratIlog10 a b :=
      zpow_le_zpow_right₀ (by norm_num) (by omega)
    linarith

/-! ### The rounding to 40 significant digits -/

lemma natDivHalf (N D : ℕ) (hD : 1 ≤ D) :
    (((2 * N + D) / (2 * D) : ℕ) : ℤ) = ⌊(N : ℚ) / D + 1 / 2⌋ := by
  have hDQ : (0 : ℚ) < (D : ℚ) := by exact_mod_cast hD
  set k := (2 * N + D) / (2 * D) with hk
  have hdm := Nat.div_add_mod (2 * N + D) (2 * D)
  set r := (2 * N + D) % (2 * D) with hr
  have hrlt : r < 2 * D := Nat.mod_lt _ (by omega)
  have key : (N : ℚ) / D + 1 / 2 = (k : ℚ) + (r : ℚ) / (2 * D) := by
    have h2 : ((2 * D * k + r : ℕ) : ℚ) = ((2 * N + D : ℕ) : ℚ) := by rw [hdm]
    push_cast at h2
    field_simp
    nlinarith [h2]
  rw [key]
  symm
  rw [Int.floor_eq_iff]
  constructor
  · push_cast
    have : (0 : ℚ) ≤ (r : ℚ) / (2 * D) := by positivity
    linarith
  · push_cast
    have hrQ : (r : ℚ) < 2 * D := by exact_mod_cast hrlt
    have : (r : ℚ) / (2 * D) < 1 := by
      rw [div_lt_one (by positivity)]
      exact hrQ
    linarith

lemma decShape_toRat (z : ℤ) (s : ℤ) :
    ((if 0 ≤ s then (⟨z, s.toNat⟩ : Dec) else ⟨z * 10 ^ (-s).toNat, 0⟩) : Dec).toRat
      = (z : ℚ) * (10 : ℚ) ^ (-s) := by
  by_cases hs : 0 ≤ s
  · rw [if_pos hs, Dec.toRat_mk, zpow_neg, ← div_eq_mul_inv]
    congr 1
    rw [← zpow_natCast (10 : ℚ) s.toNat, Int.toNat_of_nonneg hs]
  · rw [if_neg hs, Dec.toRat_mk]
    push_cast
    rw [pow_zero, div_one, ← zpow_natCast (10 : ℚ) (-s).toNat,
      Int.toNat_of_nonneg (by omega : 0 ≤ -s)]

lemma roundSig40_val (p q : ℤ) (hp : p ≠ 0) (hq : q ≠ 0) :
    (roundSig40 p q).toRat
      = (if (p < 0) ↔ (q < 0) then 1 else -1) *
        ((⌊|(p : ℚ) / q| * (10 : ℚ) ^ (39 - ratIlog10 p.natAbs q.natAbs) + 1 / 2⌋ : ℤ) : ℚ) *
        (10 : ℚ) ^ (ratIlog10 p.natAbs q.natAbs - 39) := by
  simp only [roundSig40, if_neg hp]
  set a := p.natAbs with ha
  set b := q.natAbs with hb
  set e0 := ratIlog10 a b with he0
  set s0 : ℤ := 39 - e0 with hs0
  set N : ℕ := if 0 ≤ s0 then a * 10 ^ s0.toNat else a with hN
  set D : ℕ := if 0 ≤ s0 then b else b * 10 ^ (-s0).toNat with hD
  set m0 : ℕ := (2 * N + D) / (2 * D) with hm0
  set m : ℕ := if m0 = 10 ^ 40 then 10 ^ 39 else m0 with hm
  set s : ℤ := if m0 = 10 ^ 40 then s0 - 1 else s0 with hs
  have ha1 : 1 ≤ a := by
    have := Int.natAbs_pos.mpr hp
    omega
  have hb1 : 1 ≤ b := by
    have := Int.natAbs_pos.mpr hq
    omega
  have hzp : ∀ e : ℤ, (0 : ℚ) < (10 : ℚ) ^ e := fun e => zpow_pos (by norm_num) e
  have habs : |(p : ℚ) / q| = (a : ℚ) / b := by
    rw [abs_div, ha, hb, Int.cast_natAbs, Int.cast_natAbs, Int.cast_abs, Int.cast_abs]
  obtain ⟨lo, hi⟩ := ratIlog10_spec a b ha1 hb1
  rw [← he0] at lo hi
  have hD1 : 1 ≤ D := by
    rw [hD]
    by_cases hcs : 0 ≤ s0
    · rw [if_pos hcs]; exact hb1
    · rw [if_neg hcs]
      exact Nat.mul_pos hb1 (pow_pos (by norm_num) _)
  have scaledEq : ((N : ℚ)) / D = ((a : ℚ) / b) * (10 : ℚ) ^ s0 := by
    rw [hN, hD]
    by_cases hcs : 0 ≤ s0
    · rw [if_pos hcs, if_pos hcs]
      push_cast
      rw [← zpow_natCast (10 : ℚ) s0.toNat, Int.toNat_of_nonneg hcs]
      ring
    · rw [if_neg hcs, if_neg hcs]
      push_cast
      rw [← zpow_natCast (10 : ℚ) (-s0).toNat, Int.toNat_of_nonneg (by omega : 0 ≤ -s0)]
      have hbQ : (0 : ℚ) < (b : ℚ) := by exact_mod_cast hb1
      have hTQ : (0 : ℚ) < (10 : ℚ) ^ (-s0 : ℤ) := hzp _
      rw [show (10 : ℚ) ^ (s0 : ℤ) = ((10 : ℚ) ^ (-s0 : ℤ))⁻¹ by
        rw [← zpow_neg]; congr 1; ring]
      field_simp
  have floorEq : (m0 : ℤ) = ⌊(a : ℚ) / b * (10 : ℚ) ^ s0 + 1 / 2⌋ := by
    rw [hm0, natDivHalf N D hD1, scaledEq]
  have scaled_lo : (10 : ℚ) ^ (39 : ℤ) ≤ (a : ℚ) / b * (10 : ℚ) ^ s0 := by
    calc (10 : ℚ) ^ (39 : ℤ) = (10 : ℚ) ^ e0 * (10 : ℚ) ^ s0 := by
          rw [← zpow_add₀ (by norm_num : (10 : ℚ) ≠ 0)]
          congr 1
          omega
      _ ≤ (a : ℚ) / b * (10 : ℚ) ^ s0 := by
          exact mul_le_mul_of_nonneg_right lo (hzp _).le
  have scaled_hi : (a : ℚ) / b * (10 : ℚ) ^ s0 < (10 : ℚ) ^ (40 : ℤ) := by
    calc (a : ℚ) / b * (10 : ℚ) ^ s0 < (10 : ℚ) ^ (e0 + 1) * (10 : ℚ) ^ s0 := by
          exact mul_lt_mul_of_pos_right hi (hzp _)
      _ = (10 : ℚ) ^ (40 : ℤ) := by
          rw [← zpow_add₀ (by norm_num : (10 : ℚ) ≠ 0)]
          congr 1
          omega
  rw [habs]
  rw [decShape_toRat]
  have hGoalExp : (10 : ℚ) ^ (e0 - 39) = (10 : ℚ) ^ (-s0 : ℤ) := by
    congr 1
    omega
  rw [hGoalExp, ← floorEq]
  by_cases hc : m0 = 10 ^ 40
  · rw [if_pos hc] at hm hs
    rw [hm, hs, hc]
    have hexp : (10 : ℚ) ^ (-(s0 - 1) : ℤ) = (10 : ℚ) * (10 : ℚ) ^ (-s0 : ℤ) := by
      rw [show (-(s0 - 1) : ℤ) = 1 + -s0 by ring,
        zpow_add₀ (by norm_num : (10 : ℚ) ≠ 0), zpow_one]
    rw [hexp]
    by_cases hσ : p < 0 ↔ q < 0
    · rw [if_pos hσ, if_pos hσ]
      push_cast
      ring
    · rw [if_neg hσ, if_neg hσ]
      push_cast
      ring
  · rw [if_neg hc] at hm hs
    rw [hm, hs]
    by_cases hσ : p < 0 ↔ q < 0
    · rw [if_pos hσ, if_pos hσ]
      push_cast
      ring
    · rw [if_neg hσ, if_neg hσ]
      push_cast
      ring

lemma roundSig40_zero (q : ℤ) : roundSig40 0 q = ⟨0, 0⟩ := by
  simp [roundSig40]

lemma floorHalf_abs (y : ℚ) : |(⌊y + 1 / 2⌋ : ℚ) - y| ≤ 1 / 2 := by
  have h1 := Int.floor_le (y + 1 / 2)
  have h2 := Int.lt_floor_add_one (y + 1 / 2)
  rw [abs_le]
  constructor <;> linarith

lemma sign_div_iff (p q : ℤ) (hp : p ≠ 0) (hq : q ≠ 0) :
    ((p < 0) ↔ (q < 0)) ↔ 0 < (p : ℚ) / q := by
  have hpQ : (p : ℚ) ≠ 0 := Int.cast_ne_zero.mpr hp
  have hqQ : (q : ℚ) ≠ 0 := Int.cast_ne_zero.mpr hq
  rcases lt_or_gt_of_ne hp with hp2 | hp2 <;> rcases lt_or_gt_of_ne hq with hq2 | hq2
  · have : 0 < (p : ℚ) / q := div_pos_of_neg_of_neg (by exact_mod_cast hp2) (by exact_mod_cast hq2)
    simp [hp2, hq2, this]
  · have : (p : ℚ) / q < 0 := div_neg_of_neg_of_pos (by exact_mod_cast hp2) (by exact_mod_cast hq2)
    constructor
    · intro h
      omega
    · intro h
      linarith
  · have : (p : ℚ) / q < 0 := div_neg_of_pos_of_neg (by exact_mod_cast hp2) (by exact_mod_cast hq2)
    constructor
    · intro h
      omega
    · intro h
      linarith
  · have : 0 < (p : ℚ) / q := div_pos (by exact_mod_cast hp2) (by exact_mod_cast hq2)
    constructor
    · intro _
      exact this
    · intro _
      omega

lemma roundSig40_err (p q : ℤ) (hq : q ≠ 0) :
    |(roundSig40 p q).toRat - (p : ℚ) / q| ≤ |(p : ℚ) / q| / 10 ^ 38 := by
  by_cases hp : p = 0
  · subst hp
    rw [roundSig40_zero]
    norm_num [Dec.toRat_mk]
  · rw [roundSig40_val p q hp hq]
    have ha1 : 1 ≤ p.natAbs := by
      have := Int.natAbs_pos.mpr hp
      omega
    have hb1 : 1 ≤ q.natAbs := by
      have := Int.natAbs_pos.mpr hq
      omega
    have habs : |(p : ℚ) / q| = (p.natAbs : ℚ) / q.natAbs := by
      rw [abs_div, Int.cast_natAbs, Int.cast_natAbs, Int.cast_abs, Int.cast_abs]
    set e0 := ratIlog10 p.natAbs q.natAbs with he0
    obtain ⟨lo, _⟩ := ratIlog10_spec p.natAbs q.natAbs ha1 hb1
    rw [← habs] at lo
    rw [← he0] at lo
    set x : ℚ := (p : ℚ) / q with hx
    set X : ℚ := |x| with hX
    set F : ℤ := ⌊X * (10 : ℚ) ^ (39 - e0) + 1 / 2⌋ with hF
    have hzp : ∀ e : ℤ, (0 : ℚ) < (10 : ℚ) ^ e := fun e => zpow_pos (by norm_num) e
    have hσx : (if (p < 0) ↔ (q < 0) then (1 : ℚ) else -1) * X = x := by
      by_cases hσ : (p < 0) ↔ (q < 0)
      · rw [if_pos hσ, one_mul, hX]
        exact abs_of_pos ((sign_div_iff p q hp hq).mp hσ)
      · rw [if_neg hσ, hX]
        have hx0 : x ≠ 0 := by
          rw [hx]
          exact div_ne_zero (Int.cast_ne_zero.mpr hp) (Int.cast_ne_zero.mpr hq)
        have : ¬ 0 < x := fun hcontra => hσ ((sign_div_iff p q hp hq).mpr hcontra)
        have hneg : x < 0 := lt_of_le_of_ne (not_lt.mp this) hx0
        rw [abs_of_neg hneg]
        ring
    have key : |(if (p < 0) ↔ (q < 0) then (1 : ℚ) else -1) * (F : ℚ) * (10 : ℚ) ^ (e0 - 39) - x|
        = |(F : ℚ) * (10 : ℚ) ^ (e0 - 39) - X| := by
      rw [← hσx]
      by_cases hσ : (p < 0) ↔ (q < 0)
      · simp only [if_pos hσ, one_mul]
      · simp only [if_neg hσ]
        rw [show (-1 : ℚ) * (F : ℚ) * (10 : ℚ) ^ (e0 - 39) - -1 * X
            = -((F : ℚ) * (10 : ℚ) ^ (e0 - 39) - X) by ring]
        rw [abs_neg]
    rw [key]
    have hfl : |(F : ℚ) - X * (10 : ℚ) ^ (39 - e0)| ≤ 1 / 2 := floorHalf_abs _
    have hrw : (F : ℚ) * (10 : ℚ) ^ (e0 - 39) - X
        = ((F : ℚ) - X * (10 : ℚ) ^ (39 - e0)) * (10 : ℚ) ^ (e0 - 39) := by
      have hmulpow : (10 : ℚ) ^ (39 - e0 : ℤ) * (10 : ℚ) ^ (e0 - 39 : ℤ) = 1 := by
        rw [← zpow_add₀ (by norm_num : (10 : ℚ) ≠ 0)]
        norm_num
      calc (F : ℚ) * (10 : ℚ) ^ (e0 - 39) - X
          = (F : ℚ) * (10 : ℚ) ^ (e0 - 39)
            - X * ((10 : ℚ) ^ (39 - e0 : ℤ) * (10 : ℚ) ^ (e0 - 39 : ℤ)) := by rw [hmulpow]; ring
        _ = ((F : ℚ) - X * (10 : ℚ) ^ (39 - e0)) * (10 : ℚ) ^ (e0 - 39) := by ring
    rw [hrw, abs_mul, abs_of_pos (hzp (e0 - 39))]
    have step1 : |(F : ℚ) - X * (10 : ℚ) ^ (39 - e0)| * (10 : ℚ) ^ (e0 - 39)
        ≤ (1 / 2) * (10 : ℚ) ^ (e0 - 39) :=
      mul_le_mul_of_nonneg_right hfl (hzp _).le
    have step2 : (1 / 2 : ℚ) * (10 : ℚ) ^ (e0 - 39) ≤ X / 10 ^ 38 := by
      have hsplit : (10 : ℚ) ^ (e0 - 39 : ℤ) = (10 : ℚ) ^ e0 * (10 : ℚ) ^ (-39 : ℤ) := by
        rw [← zpow_add₀ (by norm_num : (10 : ℚ) ≠ 0)]
        congr 1
      have hle : (10 : ℚ) ^ e0 * (10 : ℚ) ^ (-39 : ℤ) ≤ X * (10 : ℚ) ^ (-39 : ℤ) :=
        mul_le_mul_of_nonneg_right lo (hzp _).le
      have hXpos : 0 ≤ X := abs_nonneg x
      have hfin : (1 / 2 : ℚ) * (X * (10 : ℚ) ^ (-39 : ℤ)) ≤ X / 10 ^ 38 := by
        rw [div_eq_mul_inv X]
        have h1 : ((10 : ℚ) ^ (38 : ℕ))⁻¹ = (10 : ℚ) ^ (-38 : ℤ) := by
          rw [← zpow_natCast (10 : ℚ) 38, ← zpow_neg]
          norm_num
        rw [h1]
        have h2 : (10 : ℚ) ^ (-39 : ℤ) * (1 / 2) ≤ (10 : ℚ) ^ (-38 : ℤ) := by
          have h3 : (10 : ℚ) ^ (-38 : ℤ) = (10 : ℚ) ^ (-39 : ℤ) * 10 := by
            rw [show (-38 : ℤ) = -39 + 1 by ring, zpow_add₀ (by norm_num : (10 : ℚ) ≠ 0),
              zpow_one]
          rw [h3]
          have := (hzp (-39 : ℤ)).le
          nlinarith
        calc (1 / 2 : ℚ) * (X * (10 : ℚ) ^ (-39 : ℤ))
            = X * ((10 : ℚ) ^ (-39 : ℤ) * (1 / 2)) := by ring
          _ ≤ X * (10 : ℚ) ^ (-38 : ℤ) := mul_le_mul_of_nonneg_left h2 hXpos
      calc (1 / 2 : ℚ) * (10 : ℚ) ^ (e0 - 39)
          = (1 / 2) * ((10 : ℚ) ^ e0 * (10 : ℚ) ^ (-39 : ℤ)) := by rw [hsplit]
        _ ≤ (1 / 2) * (X * (10 : ℚ) ^ (-39 : ℤ)) := by
            have := mul_le_mul_of_nonneg_left hle (by norm_num : (0 : ℚ) ≤ 1 / 2)
            linarith
        _ ≤ X / 10 ^ 38 := hfin
    calc |(F : ℚ) - X * (10 : ℚ) ^ (39 - e0)| * (10 : ℚ) ^ (e0 - 39)
        ≤ (1 / 2) * (10 : ℚ) ^ (e0 - 39) := step1
      _ ≤ X / 10 ^ 38 := step2

lemma roundSig40_nonneg (p q : ℤ) (hp : 0 ≤ p) (hq : 0 < q) :
    0 ≤ (roundSig40 p q).toRat := by
  by_cases hp0 : p = 0
  · subst hp0
    rw [roundSig40_zero]
    norm_num [Dec.toRat_mk]
  · rw [roundSig40_val p q hp0 hq.ne']
    have hσ : (p < 0) ↔ (q < 0) := by omega
    rw [if_pos hσ, one_mul]
    have hF : (0 : ℤ) ≤ ⌊|(p : ℚ) / q| * (10 : ℚ) ^ (39 - ratIlog10 p.natAbs q.natAbs) + 1 / 2⌋ := by
      apply Int.le_floor.mpr
      have h1 : (0 : ℚ) ≤ |(p : ℚ) / q| * (10 : ℚ) ^ (39 - ratIlog10 p.natAbs q.natAbs) := by
        apply mul_nonneg (abs_nonneg _) (zpow_pos (by norm_num : (0:ℚ) < 10) _).le
      push_cast
      linarith
    apply mul_nonneg
    · exact_mod_cast hF
    · exact (zpow_pos (by norm_num : (0:ℚ) < 10) _).le

lemma roundSig40_nonpos (p q : ℤ) (hp : p ≤ 0) (hq : 0 < q) :
    (roundSig40 p q).toRat ≤ 0 := by
  by_cases hp0 : p = 0
  · subst hp0
    rw [roundSig40_zero]
    norm_num [Dec.toRat_mk]
  · rw [roundSig40_val p q hp0 hq.ne']
    have hσ : ¬ ((p < 0) ↔ (q < 0)) := by omega
    rw [if_neg hσ]
    have hF : (0 : ℤ) ≤ ⌊|(p : ℚ) / q| * (10 : ℚ) ^ (39 - ratIlog10 p.natAbs q.natAbs) + 1 / 2⌋ := by
      apply Int.le_floor.mpr
      have h1 : (0 : ℚ) ≤ |(p : ℚ) / q| * (10 : ℚ) ^ (39 - ratIlog10 p.natAbs q.natAbs) := by
        apply mul_nonneg (abs_nonneg _) (zpow_pos (by norm_num : (0:ℚ) < 10) _).le
      push_cast
      linarith
    have hFQ : (0 : ℚ) ≤ (⌊|(p : ℚ) / q| * (10 : ℚ) ^ (39 - ratIlog10 p.natAbs q.natAbs) + 1 / 2⌋ : ℚ) := by
      exact_mod_cast hF
    have hzp := (zpow_pos (by norm_num : (0:ℚ) < 10) (ratIlog10 p.natAbs q.natAbs - 39)).le
    nlinarith

lemma cast_pow10 (k : ℕ) : (((10 : ℤ) ^ k : ℤ) : ℚ) = (10 : ℚ) ^ k := by
  push_cast
  rfl

lemma decR40_err (d : Dec) : |(decR40 d).toRat - d.toRat| ≤ |d.toRat| / 10 ^ 38 := by
  unfold decR40
  have h := roundSig40_err d.num ((10 : ℤ) ^ d.exp) (by positivity)
  rw [show ((((10 : ℤ) ^ d.exp : ℤ)) : ℚ) = (10 : ℚ) ^ d.exp from cast_pow10 d.exp] at h
  exact h

lemma decR40_nonneg (d : Dec) (hd : 0 ≤ d.toRat) : 0 ≤ (decR40 d).toRat := by
  unfold decR40
  apply roundSig40_nonneg
  · by_contra hc
    push_neg at hc
    have : d.toRat < 0 := by
      unfold Dec.toRat
      apply div_neg_of_neg_of_pos
      · exact_mod_cast hc
      · exact Dec.pow10_pos d.exp
    linarith
  · positivity

lemma midDiv (m T : ℕ) (hT : 0 < T) : (2 * (m * T) + T) / (2 * T) = m := by
  rw [show 2 * (m * T) + T = T * (2 * m + 1) by ring, show 2 * T = T * 2 by ring,
    Nat.mul_div_mul_left _ _ hT]
  omega

lemma roundSig40_shape (p q : ℤ) (hp : p ≠ 0) (hq : q ≠ 0) :
    ∃ (m k j : ℕ), 10 ^ 39 ≤ m ∧ m < 10 ^ 40 ∧ (j = 0 ∨ k = 0) ∧
      roundSig40 p q = ⟨(if (p < 0) ↔ (q < 0) then (m : ℤ) else -(m : ℤ)) * 10 ^ j, k⟩ := by
  simp only [roundSig40, if_neg hp]
  set a := p.natAbs with ha
  set b := q.natAbs with hb
  set e0 := ratIlog10 a b with he0
  set s0 : ℤ := 39 - e0 with hs0
  set N : ℕ := if 0 ≤ s0 then a * 10 ^ s0.toNat else a with hN
  set D : ℕ := if 0 ≤ s0 then b else b * 10 ^ (-s0).toNat with hD
  set m0 : ℕ := (2 * N + D) / (2 * D) with hm0
  set m : ℕ := if m0 = 10 ^ 40 then 10 ^ 39 else m0 with hm
  set s : ℤ := if m0 = 10 ^ 40 then s0 - 1 else s0 with hs
  have ha1 : 1 ≤ a := by
    have := Int.natAbs_pos.mpr hp
    omega
  have hb1 : 1 ≤ b := by
    have := Int.natAbs_pos.mpr hq
    omega
  have hzp : ∀ e : ℤ, (0 : ℚ) < (10 : ℚ) ^ e := fun e => zpow_pos (by norm_num) e
  obtain ⟨lo, hi⟩ := ratIlog10_spec a b ha1 hb1
  rw [← he0] at lo hi
  have hD1 : 1 ≤ D := by
    rw [hD]
    by_cases hcs : 0 ≤ s0
    · rw [if_pos hcs]; exact hb1
    · rw [if_neg hcs]
      exact Nat.mul_pos hb1 (pow_pos (by norm_num) _)
  have scaledEq : ((N : ℚ)) / D = ((a : ℚ) / b) * (10 : ℚ) ^ s0 := by
    rw [hN, hD]
    by_cases hcs : 0 ≤ s0
    · rw [if_pos hcs, if_pos hcs]
      push_cast
      rw [← zpow_natCast (10 : ℚ) s0.toNat, Int.toNat_of_nonneg hcs]
      ring
    · rw [if_neg hcs, if_neg hcs]
      push_cast
      rw [← zpow_natCast (10 : ℚ) (-s0).toNat, Int.toNat_of_nonneg (by omega : 0 ≤ -s0)]
      have hbQ : (0 : ℚ) < (b : ℚ) := by exact_mod_cast hb1
      have hTQ : (0 : ℚ) < (10 : ℚ) ^ (-s0 : ℤ) := hzp _
      rw [show (10 : ℚ) ^ (s0 : ℤ) = ((10 : ℚ) ^ (-s0 : ℤ))⁻¹ by
        rw [← zpow_neg]; congr 1; ring]
      field_simp
  have floorEq : (m0 : ℤ) = ⌊(a : ℚ) / b * (10 : ℚ) ^ s0 + 1 / 2⌋ := by
    rw [hm0, natDivHalf N D hD1, scaledEq]
  have scaled_lo : (10 : ℚ) ^ (39 : ℤ) ≤ (a : ℚ) / b * (10 : ℚ) ^ s0 := by
    calc (10 : ℚ) ^ (39 : ℤ) = (10 : ℚ) ^ e0 * (10 : ℚ) ^ s0 := by
          rw [← zpow_add₀ (by norm_num : (10 : ℚ) ≠ 0)]
          congr 1
          omega
      _ ≤ (a : ℚ) / b * (10 : ℚ) ^ s0 := by
          exact mul_le_mul_of_nonneg_right lo (hzp _).le
  have scaled_hi : (a : ℚ) / b * (10 : ℚ) ^ s0 < (10 : ℚ) ^ (40 : ℤ) := by
    calc (a : ℚ) / b * (10 : ℚ) ^ s0 < (10 : ℚ) ^ (e0 + 1) * (10 : ℚ) ^ s0 := by
          exact mul_lt_mul_of_pos_right hi (hzp _)
      _ = (10 : ℚ) ^ (40 : ℤ) := by
          rw [← zpow_add₀ (by norm_num : (10 : ℚ) ≠ 0)]
          congr 1
          omega
  have m0_lo : (10 ^ 39 : ℤ) ≤ (m0 : ℤ) := by
    rw [floorEq, Int.le_floor]
    have hcast : ((10 : ℚ) ^ (39 : ℤ)) = (((10 ^ 39 : ℤ) : ℚ)) := by norm_num
    rw [hcast] at scaled_lo
    linarith
  have m0_hi : (m0 : ℤ) ≤ 10 ^ 40 := by
    have h1 : ((m0 : ℤ) : ℚ) ≤ (a : ℚ) / b * (10 : ℚ) ^ s0 + 1 / 2 := by
      rw [floorEq]
      exact Int.floor_le _
    have hcast : ((10 : ℚ) ^ (40 : ℤ)) = (((10 ^ 40 : ℤ) : ℚ)) := by norm_num
    rw [hcast] at scaled_hi
    have h2 : ((m0 : ℤ) : ℚ) < ((10 ^ 40 : ℤ) : ℚ) + 1 := by linarith
    have h3 : (m0 : ℤ) < (10 ^ 40 : ℤ) + 1 := by exact_mod_cast h2
    omega
  have hm_lo : 10 ^ 39 ≤ m := by
    rw [hm]
    by_cases hc : m0 = 10 ^ 40
    · rw [if_pos hc]
    · rw [if_neg hc]
      exact_mod_cast m0_lo
  have hm_hi : m < 10 ^ 40 := by
    rw [hm]
    by_cases hc : m0 = 10 ^ 40
    · rw [if_pos hc]
      norm_num
    · rw [if_neg hc]
      have : (m0 : ℤ) < 10 ^ 40 := lt_of_le_of_ne m0_hi (by exact_mod_cast hc)
      exact_mod_cast this
  by_cases hcs : 0 ≤ s
  · refine ⟨m, s.toNat, 0, hm_lo, hm_hi, Or.inl rfl, ?_⟩
    rw [if_pos hcs]
    have : (if p < 0 ↔ q < 0 then (m : ℤ) else -(m : ℤ)) * 10 ^ (0 : ℕ)
        = (if p < 0 ↔ q < 0 then (m : ℤ) else -(m : ℤ)) := by
      rw [pow_zero, mul_one]
    rw [this]
  · refine ⟨m, 0, (-s).toNat, hm_lo, hm_hi, Or.inr rfl, ?_⟩
    rw [if_neg hcs]

lemma decR40_nonpos (d : Dec) (hd : d.toRat ≤ 0) : (decR40 d).toRat ≤ 0 := by
  unfold decR40
  apply roundSig40_nonpos
  · by_contra hc
    push_neg at hc
    have : 0 < d.toRat := by
      unfold Dec.toRat
      apply div_pos
      · exact_mod_cast hc
      · exact Dec.pow10_pos d.exp
    linarith
  · positivity

lemma floor_add_half_int (m : ℤ) : ⌊(m : ℚ) + 1 / 2⌋ = m := by
  rw [Int.floor_eq_iff]
  constructor
  · linarith
  · push_cast
    linarith

lemma pow10_shift_unique (m1 m2 A B : ℕ)
    (h1 : 10 ^ 39 ≤ m1) (h1h : m1 < 10 ^ 40) (h2 : 10 ^ 39 ≤ m2) (h2h : m2 < 10 ^ 40)
    (heq : m1 * 10 ^ A = m2 * 10 ^ B) : m1 = m2 ∧ A = B := by
  rcases le_total A B with hAB | hAB
  · have hsplit : 10 ^ B = 10 ^ A * 10 ^ (B - A) := by
      rw [← pow_add]
      congr 1
      omega
    rw [hsplit, ← mul_assoc] at heq
    have hcancel : m1 = m2 * 10 ^ (B - A) := by
      have h10 : 0 < 10 ^ A := pow_pos (by norm_num) A
      rw [show m2 * 10 ^ A * 10 ^ (B - A) = m2 * 10 ^ (B - A) * 10 ^ A by ring] at heq
      exact Nat.eq_of_mul_eq_mul_right h10 heq
    by_cases hd : B - A = 0
    · rw [hd, pow_zero, mul_one] at hcancel
      omega
    · exfalso
      have h10 : 10 ≤ 10 ^ (B - A) := by
        calc 10 = 10 ^ 1 := (pow_one 10).symm
          _ ≤ 10 ^ (B - A) := Nat.pow_le_pow_right (by norm_num) (by omega)
      have : 10 ^ 40 ≤ m1 := by
        calc 10 ^ 40 = 10 ^ 39 * 10 := by norm_num
          _ ≤ m2 * 10 ^ (B - A) := Nat.mul_le_mul h2 h10
          _ = m1 := hcancel.symm
      omega
  · have hsplit : 10 ^ A = 10 ^ B * 10 ^ (A - B) := by
      rw [← pow_add]
      congr 1
      omega
    rw [hsplit, ← mul_assoc] at heq
    have hcancel : m1 * 10 ^ (A - B) = m2 := by
      have h10 : 0 < 10 ^ B := pow_pos (by norm_num) B
      rw [show m1 * 10 ^ B * 10 ^ (A - B) = m1 * 10 ^ (A - B) * 10 ^ B by ring] at heq
      exact Nat.eq_of_mul_eq_mul_right h10 heq
    by_cases hd : A - B = 0
    · rw [hd, pow_zero, mul_one] at hcancel
      omega
    · exfalso
      have h10 : 10 ≤ 10 ^ (A - B) := by
        calc 10 = 10 ^ 1 := (pow_one 10).symm
          _ ≤ 10 ^ (A - B) := Nat.pow_le_pow_right (by norm_num) (by omega)
      have : 10 ^ 40 ≤ m2 := by
        calc 10 ^ 40 = 10 ^ 39 * 10 := by norm_num
          _ ≤ m1 * 10 ^ (A - B) := Nat.mul_le_mul h1 h10
          _ = m2 := hcancel
      omega

lemma canonical_toRat (c : Prop) [Decidable c] (m j k : ℕ) :
    (⟨(if c then (m : ℤ) else -(m : ℤ)) * 10 ^ j, k⟩ : Dec).toRat
      = (if c then (1 : ℚ) else -1) * ((m * 10 ^ j : ℕ) : ℚ) / 10 ^ k := by
  rw [Dec.toRat_mk]
  by_cases hc : c
  · rw [if_pos hc, if_pos hc]
    push_cast
    ring
  · rw [if_neg hc, if_neg hc]
    push_cast
    ring

lemma canonical_unique (c1 c2 : Prop) [Decidable c1] [Decidable c2] (m1 m2 j1 j2 k1 k2 : ℕ)
    (hm1 : 10 ^ 39 ≤ m1) (hm1h : m1 < 10 ^ 40) (hm2 : 10 ^ 39 ≤ m2) (hm2h : m2 < 10 ^ 40)
    (hsh1 : j1 = 0 ∨ k1 = 0) (hsh2 : j2 = 0 ∨ k2 = 0)
    (hval : (⟨(if c1 then (m1 : ℤ) else -(m1 : ℤ)) * 10 ^ j1, k1⟩ : Dec).toRat
          = (⟨(if c2 then (m2 : ℤ) else -(m2 : ℤ)) * 10 ^ j2, k2⟩ : Dec).toRat) :
    (⟨(if c1 then (m1 : ℤ) else -(m1 : ℤ)) * 10 ^ j1, k1⟩ : Dec)
      = ⟨(if c2 then (m2 : ℤ) else -(m2 : ℤ)) * 10 ^ j2, k2⟩ := by
  rw [canonical_toRat, canonical_toRat] at hval
  have hM1 : (0 : ℚ) < ((m1 * 10 ^ j1 : ℕ) : ℚ) := by
    have : 0 < m1 * 10 ^ j1 := Nat.mul_pos (by omega) (pow_pos (by norm_num) j1)
    exact_mod_cast this
  have hM2 : (0 : ℚ) < ((m2 * 10 ^ j2 : ℕ) : ℚ) := by
    have : 0 < m2 * 10 ^ j2 := Nat.mul_pos (by omega) (pow_pos (by norm_num) j2)
    exact_mod_cast this
  have hk1 : (0 : ℚ) < (10 : ℚ) ^ k1 := by positivity
  have hk2 : (0 : ℚ) < (10 : ℚ) ^ k2 := by positivity
  have hcc : c1 ↔ c2 := by
    by_cases hc1 : c1 <;> by_cases hc2 : c2
    · exact iff_of_true hc1 hc2
    · exfalso
      rw [if_pos hc1, if_neg hc2] at hval
      have hpos : (0 : ℚ) < 1 * ((m1 * 10 ^ j1 : ℕ) : ℚ) / 10 ^ k1 := by positivity
      have hneg : -1 * ((m2 * 10 ^ j2 : ℕ) : ℚ) / 10 ^ k2 < 0 := by
        rw [neg_one_mul, neg_div]
        exact neg_neg_of_pos (by positivity)
      linarith [hval, hpos, hneg]
    · exfalso
      rw [if_neg hc1, if_pos hc2] at hval
      have hpos : (0 : ℚ) < 1 * ((m2 * 10 ^ j2 : ℕ) : ℚ) / 10 ^ k2 := by positivity
      have hneg : -1 * ((m1 * 10 ^ j1 : ℕ) : ℚ) / 10 ^ k1 < 0 := by
        rw [neg_one_mul, neg_div]
        exact neg_neg_of_pos (by positivity)
      linarith [hval, hpos, hneg]
    · exact iff_of_false hc1 hc2
  have habs : ((m1 * 10 ^ j1 : ℕ) : ℚ) / 10 ^ k1 = ((m2 * 10 ^ j2 : ℕ) : ℚ) / 10 ^ k2 := by
    by_cases hc1 : c1
    · have hc2 : c2 := hcc.mp hc1
      rw [if_pos hc1, if_pos hc2, one_mul, one_mul] at hval
      exact hval
    · have hc2 : ¬ c2 := fun h => hc1 (hcc.mpr h)
      rw [if_neg hc1, if_neg hc2] at hval
      have := hval
      field_simp at this ⊢
      linarith [this]
  have hcross : m1 * 10 ^ j1 * 10 ^ k2 = m2 * 10 ^ j2 * 10 ^ k1 := by
    rw [div_eq_div_iff hk1.ne' hk2.ne'] at habs
    have : ((m1 * 10 ^ j1 * 10 ^ k2 : ℕ) : ℚ) = ((m2 * 10 ^ j2 * 10 ^ k1 : ℕ) : ℚ) := by
      push_cast
      push_cast at habs
      linarith [habs]
    exact_mod_cast this
  have hregroup : m1 * 10 ^ (j1 + k2) = m2 * 10 ^ (j2 + k1) := by
    rw [pow_add, pow_add, ← mul_assoc, ← mul_assoc]
    exact hcross
  obtain ⟨hmeq, hexp⟩ := pow10_shift_unique m1 m2 (j1 + k2) (j2 + k1) hm1 hm1h hm2 hm2h hregroup
  have hjk : j1 = j2 ∧ k1 = k2 := by
    rcases hsh1 with h1 | h1 <;> rcases hsh2 with h2 | h2 <;> omega
  obtain ⟨hj, hk⟩ := hjk
  subst hmeq hj hk
  congr 1
  by_cases hc1 : c1
  · rw [if_pos hc1, if_pos (hcc.mp hc1)]
  · rw [if_neg hc1, if_neg (fun h => hc1 (hcc.mpr h))]

lemma ratIlog10_canonical (m j k : ℕ) (hm1 : 10 ^ 39 ≤ m) (hm2 : m < 10 ^ 40) :
    ratIlog10 (m * 10 ^ j) (10 ^ k) = 39 + (j : ℤ) - k := by
  have hzp : ∀ e : ℤ, (0 : ℚ) < (10 : ℚ) ^ e := fun e => zpow_pos (by norm_num) e
  have hmQ_lo : ((10 : ℚ) ^ (39 : ℤ)) ≤ (m : ℚ) := by
    have hcast : ((10 : ℚ) ^ (39 : ℤ)) = (((10 ^ 39 : ℤ) : ℚ)) := by norm_num
    rw [hcast]
    exact_mod_cast hm1
  have hmQ_hi : (m : ℚ) < ((10 : ℚ) ^ (40 : ℤ)) := by
    have hcast : ((10 : ℚ) ^ (40 : ℤ)) = (((10 ^ 40 : ℤ) : ℚ)) := by norm_num
    rw [hcast]
    exact_mod_cast hm2
  have hvalue : ((m * 10 ^ j : ℕ) : ℚ) / ((10 ^ k : ℕ) : ℚ)
      = (m : ℚ) * (10 : ℚ) ^ ((j : ℤ) - k) := by
    push_cast
    rw [zpow_sub₀ (by norm_num : (10 : ℚ) ≠ 0), zpow_natCast, zpow_natCast]
    field_simp
  apply ratIlog10_unique
  · exact Nat.mul_pos (by omega : 0 < m) (pow_pos (by norm_num : (0:ℕ) < 10) j)
  · exact pow_pos (by norm_num : (0:ℕ) < 10) k
  · rw [hvalue]
    calc (10 : ℚ) ^ (39 + (j : ℤ) - k)
        = (10 : ℚ) ^ (39 : ℤ) * (10 : ℚ) ^ ((j : ℤ) - k) := by
          rw [← zpow_add₀ (by norm_num : (10 : ℚ) ≠ 0)]
          congr 1
          ring
      _ ≤ (m : ℚ) * (10 : ℚ) ^ ((j : ℤ) - k) :=
          mul_le_mul_of_nonneg_right hmQ_lo (hzp _).le
  · rw [hvalue]
    calc (m : ℚ) * (10 : ℚ) ^ ((j : ℤ) - k)
        < (10 : ℚ) ^ (40 : ℤ) * (10 : ℚ) ^ ((j : ℤ) - k) :=
          mul_lt_mul_of_pos_right hmQ_hi (hzp _)
      _ = (10 : ℚ) ^ (39 + (j : ℤ) - k + 1) := by
          rw [← zpow_add₀ (by norm_num : (10 : ℚ) ≠ 0)]
          congr 1
          ring

lemma decR40_fix (c : Prop) [Decidable c] (m j k : ℕ)
    (hm1 : 10 ^ 39 ≤ m) (hm2 : m < 10 ^ 40) :
    (decR40 ⟨(if c then (m : ℤ) else -(m : ℤ)) * 10 ^ j, k⟩).toRat
      = (⟨(if c then (m : ℤ) else -(m : ℤ)) * 10 ^ j, k⟩ : Dec).toRat := by
  set w : ℤ := (if c then (m : ℤ) else -(m : ℤ)) * 10 ^ j with hw
  have hmpos : (0 : ℕ) < m := by
    have := pow_pos (by norm_num : (0:ℕ) < 10) 39
    omega
  have hj10 : (0 : ℤ) < 10 ^ j := by positivity
  have hnabs : w.natAbs = m * 10 ^ j := by
    rw [hw, Int.natAbs_mul, Int.natAbs_pow]
    congr 1
    by_cases hc : c
    · rw [if_pos hc]
      simp
    · rw [if_neg hc, Int.natAbs_neg]
      simp
  have hw0 : w ≠ 0 := by
    intro hcontra
    rw [hcontra] at hnabs
    simp only [Int.natAbs_zero] at hnabs
    have h1 : 0 < m * 10 ^ j := Nat.mul_pos hmpos (pow_pos (by norm_num) j)
    omega
  have hwsign : w < 0 ↔ ¬ c := by
    rw [hw]
    by_cases hc : c
    · rw [if_pos hc]
      constructor
      · intro hcontra
        have hmz : (0 : ℤ) < (m : ℤ) := by exact_mod_cast hmpos
        nlinarith
      · intro hcontra
        exact absurd hc hcontra
    · rw [if_neg hc]
      constructor
      · intro _
        exact hc
      · intro _
        have hmz : (0 : ℤ) < (m : ℤ) := by exact_mod_cast hmpos
        nlinarith
  unfold decR40
  have hq0 : ((10 : ℤ) ^ k) ≠ 0 := by positivity
  rw [roundSig40_val w ((10 : ℤ) ^ k) hw0 hq0]
  have hbabs : ((10 : ℤ) ^ k).natAbs = 10 ^ k := by
    rw [Int.natAbs_pow]
    rfl
  rw [hnabs, hbabs, ratIlog10_canonical m j k hm1 hm2]
  have hqneg : ¬ ((10 : ℤ) ^ k < 0) := by
    have : (0 : ℤ) < 10 ^ k := by positivity
    omega
  have hzp : ∀ e : ℤ, (0 : ℚ) < (10 : ℚ) ^ e := fun e => zpow_pos (by norm_num) e
  have habsval : |(w : ℚ) / ((((10 : ℤ) ^ k) : ℤ) : ℚ)| = ((m * 10 ^ j : ℕ) : ℚ) / (10 : ℚ) ^ k := by
    rw [abs_div]
    congr 1
    · rw [← hnabs, Int.cast_natAbs, Int.cast_abs]
    · rw [abs_of_pos]
      · push_cast
        rfl
      · have : (0 : ℤ) < 10 ^ k := by positivity
        exact_mod_cast this
  rw [habsval]
  have hscaled : ((m * 10 ^ j : ℕ) : ℚ) / (10 : ℚ) ^ k * (10 : ℚ) ^ (39 - (39 + (j : ℤ) - k))
      = (m : ℚ) := by
    have hv : ((m * 10 ^ j : ℕ) : ℚ) / (10 : ℚ) ^ k = (m : ℚ) * (10 : ℚ) ^ ((j : ℤ) - k) := by
      push_cast
      rw [zpow_sub₀ (by norm_num : (10 : ℚ) ≠ 0), zpow_natCast, zpow_natCast]
      field_simp
    rw [hv, show (39 : ℤ) - (39 + (j : ℤ) - k) = (k : ℤ) - j by ring, mul_assoc,
      ← zpow_add₀ (by norm_num : (10 : ℚ) ≠ 0)]
    norm_num
  rw [hscaled]
  have hfl : ⌊(m : ℚ) + 1 / 2⌋ = (m : ℤ) := by
    have := floor_add_half_int (m : ℤ)
    push_cast at this
    push_cast
    exact this
  rw [hfl]
  rw [canonical_toRat]
  have hσ : ((w < 0) ↔ ((10 : ℤ) ^ k < 0)) ↔ c := by
    constructor
    · intro h
      by_contra hc
      exact hqneg (h.mp (hwsign.mpr hc))
    · intro hc
      constructor
      · intro hneg
        exact absurd hc (hwsign.mp hneg)
      · intro hcontra
        exact absurd hcontra hqneg
  have hexp : (10 : ℚ) ^ (39 + (j : ℤ) - k - 39) = (10 : ℚ) ^ ((j : ℤ) - k) := by
    congr 1
    ring
  rw [hexp]
  have hvback : (m : ℚ) * (10 : ℚ) ^ ((j : ℤ) - k) = ((m * 10 ^ j : ℕ) : ℚ) / (10 : ℚ) ^ k := by
    push_cast
    rw [zpow_sub₀ (by norm_num : (10 : ℚ) ≠ 0), zpow_natCast, zpow_natCast]
    field_simp
  by_cases hc : c
  · rw [if_pos (hσ.mpr hc), if_pos hc]
    push_cast
    rw [zpow_sub₀ (by norm_num : (10 : ℚ) ≠ 0), zpow_natCast, zpow_natCast]
    field_simp
  · rw [if_neg (fun h => hc (hσ.mp h)), if_neg hc]
    push_cast
    rw [zpow_sub₀ (by norm_num : (10 : ℚ) ≠ 0), zpow_natCast, zpow_natCast]
    field_simp

/-- Mathematical bankers rounding of a rational to the nearest integer,
used to characterize `rheFrac` by value. -/
def rheQ (x : ℚ) : ℤ :=
  if x - ⌊x⌋ < 1 / 2 then ⌊x⌋
  else if 1 / 2 < x - ⌊x⌋ then ⌊x⌋ + 1
  else if ⌊x⌋ % 2 = 0 then ⌊x⌋ else ⌊x⌋ + 1

lemma rheFrac_eq_rheQ (p : ℤ) (k : ℕ) : rheFrac p k = rheQ ((p : ℚ) / 10 ^ k) := by
  unfold rheFrac rheQ
  set t : ℤ := 10 ^ k with ht
  have htpos : (0 : ℤ) < t := by positivity
  have htQ : (0 : ℚ) < (t : ℚ) := by exact_mod_cast htpos
  set n := p / t with hn
  set r := p - n * t with hr
  have hdm := Int.ediv_add_emod p t
  have hmod0 : 0 ≤ p % t := Int.emod_nonneg p htpos.ne'
  have hmodt : p % t < t := Int.emod_lt_of_pos p htpos
  have hnt : n * t = t * (p / t) := by rw [hn]; ring
  have hlow : n * t ≤ p := by rw [hnt]; linarith [hdm, hmod0]
  have hhigh : p < (n + 1) * t := by
    have hx : (n + 1) * t = t * (p / t) + t := by rw [hn]; ring
    rw [hx]
    linarith [hdm, hmodt]
  have hr0 : 0 ≤ r := by
    rw [hr]
    linarith [hlow]
  have hrt : r < t := by
    have hexpand : (n + 1) * t = n * t + t := by ring
    rw [hr]
    rw [hexpand] at hhigh
    linarith [hhigh]
  have hcast : ((t : ℚ)) ≠ 0 := htQ.ne'
  have hfloor : ⌊(p : ℚ) / t⌋ = n := by
    rw [Int.floor_eq_iff]
    constructor
    · rw [le_div_iff₀ htQ]
      exact_mod_cast hlow
    · rw [div_lt_iff₀ htQ]
      have hc : ((p : ℚ)) < ((n + 1 : ℤ) : ℚ) * t := by exact_mod_cast hhigh
      push_cast at hc
      linarith [hc]
  have hfrac : (p : ℚ) / t - n = (r : ℚ) / t := by
    rw [hr]
    push_cast
    field_simp
    ring
  have htQcast : ((10 : ℚ) ^ k) = (t : ℚ) := by
    rw [ht]
    push_cast
    rfl
  rw [htQcast, hfloor, hfrac]
  have hc1 : ((r : ℚ) / t < 1 / 2) ↔ (2 * r < t) := by
    rw [div_lt_div_iff₀ htQ (by norm_num : (0:ℚ) < 2)]
    constructor
    · intro h
      exact_mod_cast (by linarith : (2 : ℚ) * r < t)
    · intro h
      have : (2 : ℚ) * r < t := by exact_mod_cast h
      linarith
  have hc2 : (1 / 2 < (r : ℚ) / t) ↔ (t < 2 * r) := by
    rw [div_lt_div_iff₀ (by norm_num : (0:ℚ) < 2) htQ]
    constructor
    · intro h
      exact_mod_cast (by linarith : (t : ℚ) < 2 * r)
    · intro h
      have : (t : ℚ) < 2 * r := by exact_mod_cast h
      linarith
  by_cases h1 : 2 * r < t
  · rw [if_pos h1, if_pos (hc1.mpr h1)]
  · rw [if_neg h1, if_neg (fun hcontra => h1 (hc1.mp hcontra))]
    by_cases h2 : t < 2 * r
    · rw [if_pos h2, if_pos (hc2.mpr h2)]
    · rw [if_neg h2, if_neg (fun hcontra => h2 (hc2.mp hcontra))]

lemma rheQ_abs (x : ℚ) : |(rheQ x : ℚ) - x| ≤ 1 / 2 := by
  unfold rheQ
  have hlo := Int.floor_le x
  have hhi := Int.lt_floor_add_one x
  by_cases h1 : x - ⌊x⌋ < 1 / 2
  · rw [if_pos h1, abs_le]
    constructor <;> linarith
  · rw [if_neg h1]
    push_neg at h1
    by_cases h2 : 1 / 2 < x - ⌊x⌋
    · rw [if_pos h2, abs_le]
      push_cast
      constructor <;> linarith
    · rw [if_neg h2]
      push_neg at h2
      by_cases h3 : ⌊x⌋ % 2 = 0
      · rw [if_pos h3, abs_le]
        constructor <;> linarith
      · rw [if_neg h3, abs_le]
        push_cast
        constructor <;> linarith

lemma applyRound_b2_toRat (d : Dec) :
    (applyRound (.bankers 2) d).toRat = (rheQ (d.toRat * 100) : ℚ) / 100 := by
  show (⟨rheFrac (d.num * 10 ^ 2) d.exp, 2⟩ : Dec).toRat = _
  rw [Dec.toRat_mk, rheFrac_eq_rheQ]
  have harg : ((d.num * 10 ^ 2 : ℤ) : ℚ) / 10 ^ d.exp = d.toRat * 100 := by
    unfold Dec.toRat
    push_cast
    ring
  rw [harg]
  norm_num

lemma applyRound_b2_err (d : Dec) :
    |(applyRound (.bankers 2) d).toRat - d.toRat| ≤ 1 / 200 := by
  rw [applyRound_b2_toRat]
  have h := rheQ_abs (d.toRat * 100)
  rw [show (rheQ (d.toRat * 100) : ℚ) / 100 - d.toRat
      = ((rheQ (d.toRat * 100) : ℚ) - d.toRat * 100) / 100 by ring]
  rw [abs_div, show |(100 : ℚ)| = 100 by norm_num]
  rw [div_le_div_iff (by norm_num : (0:ℚ) < 100) (by norm_num : (0:ℚ) < 200)]
  linarith [h]

lemma decR40_idem (p q : ℤ) (hq : q ≠ 0) :
    decR40 (roundSig40 p q) = roundSig40 p q := by
  by_cases hp : p = 0
  · subst hp
    rw [roundSig40_zero]
    unfold decR40
    exact roundSig40_zero _
  · obtain ⟨m, k, j, hm1, hm2, hsh1, heq⟩ := roundSig40_shape p q hp hq
    rw [heq]
    have hfix := decR40_fix ((p < 0) ↔ (q < 0)) m j k hm1 hm2
    set w : ℤ := (if (p < 0) ↔ (q < 0) then (m : ℤ) else -(m : ℤ)) * 10 ^ j with hw
    have hmpos : (0 : ℕ) < m := by
      have := pow_pos (by norm_num : (0:ℕ) < 10) 39
      omega
    have hw0 : w ≠ 0 := by
      rw [hw]
      by_cases hc : (p < 0) ↔ (q < 0)
      · rw [if_pos hc]
        have hmz : (0 : ℤ) < (m : ℤ) := by exact_mod_cast hmpos
        positivity
      · rw [if_neg hc]
        have hmz : (0 : ℤ) < (m : ℤ) := by exact_mod_cast hmpos
        have h10 : (0 : ℤ) < 10 ^ j := by positivity
        nlinarith
    have hq0 : ((10 : ℤ) ^ k) ≠ 0 := by positivity
    have hunf : decR40 (⟨w, k⟩ : Dec) = roundSig40 w ((10 : ℤ) ^ k) := rfl
    obtain ⟨m2, k2, j2, hm21, hm22, hsh2, heq2⟩ := roundSig40_shape w ((10 : ℤ) ^ k) hw0 hq0
    rw [hunf, heq2]
    have hval2 : (⟨(if (w < 0) ↔ (((10 : ℤ) ^ k) < 0) then (m2 : ℤ) else -(m2 : ℤ)) * 10 ^ j2,
        k2⟩ : Dec).toRat = (⟨w, k⟩ : Dec).toRat := by
      rw [← heq2, ← hunf]
      exact hfix
    exact canonical_unique _ _ m2 m j2 j k2 k hm21 hm22 hm1 hm2 hsh2 hsh1 (by
      rw [hval2, hw])

/-! ### Value determinism of the precision rounding -/

lemma int_floor_div (p t : ℤ) (ht : 0 < t) : ⌊(p : ℚ) / t⌋ = p / t := by
  have htQ : (0 : ℚ) < (t : ℚ) := by exact_mod_cast ht
  have hdm := Int.ediv_add_emod p t
  have hmod0 : 0 ≤ p % t := Int.emod_nonneg p ht.ne'
  have hmodt : p % t < t := Int.emod_lt_of_pos p ht
  rw [Int.floor_eq_iff]
  constructor
  · rw [le_div_iff₀ htQ]
    have h : (p / t) * t ≤ p := by
      have hx : (p / t) * t = t * (p / t) := by ring
      rw [hx]
      linarith
    exact_mod_cast h
  · rw [div_lt_iff₀ htQ]
    have h : p < (p / t + 1) * t := by
      have hx : (p / t + 1) * t = t * (p / t) + t := by ring
      rw [hx]
      linarith
    have hc : ((p : ℚ)) < ((p / t + 1 : ℤ) : ℚ) * t := by exact_mod_cast h
    push_cast at hc
    linarith

lemma abs_cast_div_natAbs (p q : ℤ) :
    |(p : ℚ) / q| = ((p.natAbs : ℕ) : ℚ) / ((q.natAbs : ℕ) : ℚ) := by
  rw [abs_div, Int.cast_natAbs, Int.cast_natAbs, Int.cast_abs, Int.cast_abs]

/-- The 40-significant-digit rounding depends only on the value of the input
fraction, not on its representation. -/
lemma roundSig40_value_det (p q p' q' : ℤ) (hq : q ≠ 0) (hq' : q' ≠ 0)
    (h : (p : ℚ) / q = (p' : ℚ) / q') : roundSig40 p q = roundSig40 p' q' := by
  have hqQ : ((q : ℚ)) ≠ 0 := Int.cast_ne_zero.mpr hq
  have hqQ' : ((q' : ℚ)) ≠ 0 := Int.cast_ne_zero.mpr hq'
  by_cases hp : p = 0
  · have h0 : (p' : ℚ) / q' = 0 := by
      rw [← h, hp]
      simp
    have hp' : p' = 0 := by
      rcases div_eq_zero_iff.mp h0 with h1 | h1
      · exact_mod_cast h1
      · exact absurd h1 hqQ'
    rw [hp, hp', roundSig40_zero, roundSig40_zero]
  · have hp' : p' ≠ 0 := by
      intro hc
      apply hp
      have h0 : (p : ℚ) / q = 0 := by
        rw [h, hc]
        simp
      rcases div_eq_zero_iff.mp h0 with h1 | h1
      · exact_mod_cast h1
      · exact absurd h1 hqQ
    have ha1 : 1 ≤ p.natAbs := by
      have := Int.natAbs_pos.mpr hp
      omega
    have hb1 : 1 ≤ q.natAbs := by
      have := Int.natAbs_pos.mpr hq
      omega
    have ha1' : 1 ≤ p'.natAbs := by
      have := Int.natAbs_pos.mpr hp'
      omega
    have hb1' : 1 ≤ q'.natAbs := by
      have := Int.natAbs_pos.mpr hq'
      omega
    have habs : ((p.natAbs : ℕ) : ℚ) / ((q.natAbs : ℕ) : ℚ)
        = ((p'.natAbs : ℕ) : ℚ) / ((q'.natAbs : ℕ) : ℚ) := by
      rw [← abs_cast_div_natAbs, ← abs_cast_div_natAbs, h]
    have he : ratIlog10 p.natAbs q.natAbs = ratIlog10 p'.natAbs q'.natAbs := by
      obtain ⟨lo, hi⟩ := ratIlog10_spec p'.natAbs q'.natAbs ha1' hb1'
      exact ratIlog10_unique p.natAbs q.natAbs ha1 hb1 _
        (by rw [habs]; exact lo) (by rw [habs]; exact hi)
    have hsign : ((p < 0) ↔ (q < 0)) ↔ ((p' < 0) ↔ (q' < 0)) := by
      rw [sign_div_iff p q hp hq, sign_div_iff p' q' hp' hq', h]
    have hvals : (roundSig40 p q).toRat = (roundSig40 p' q').toRat := by
      rw [roundSig40_val p q hp hq, roundSig40_val p' q' hp' hq', h, he]
      by_cases hc : (p < 0) ↔ (q < 0)
      · rw [if_pos hc, if_pos (hsign.mp hc)]
      · rw [if_neg hc, if_neg (fun hx => hc (hsign.mpr hx))]
    obtain ⟨m1, k1, j1, hA1, hA2, hS1, hE1⟩ := roundSig40_shape p q hp hq
    obtain ⟨m2, k2, j2, hB1, hB2, hS2, hE2⟩ := roundSig40_shape p' q' hp' hq'
    rw [hE1, hE2]
    exact canonical_unique _ _ m1 m2 j1 j2 k1 k2 hA1 hA2 hB1 hB2 hS1 hS2
      (by rw [← hE1, ← hE2]; exact hvals)

lemma decR40_value_det (d e : Dec) (h : d.toRat = e.toRat) : decR40 d = decR40 e := by
  unfold decR40
  apply roundSig40_value_det
  · positivity
  · positivity
  · rw [cast_pow10, cast_pow10]
    exact h

lemma decR40_decR40 (d : Dec) : decR40 (decR40 d) = decR40 d :=
  decR40_idem d.num ((10 : ℤ) ^ d.exp) (by positivity)

/-! ### Zero-rate arithmetic of the accounts -/

lemma mulA_zero_right (a : Dec) : mulA a Dec.zero .none = Dec.zero := by
  show decR40 (Dec.mul a Dec.zero) = Dec.zero
  have h : Dec.mul a Dec.zero = ⟨0, a.exp⟩ := by
    simp [Dec.mul, Dec.zero]
  rw [h]
  show roundSig40 0 ((10 : ℤ) ^ a.exp) = Dec.zero
  exact roundSig40_zero _

lemma addA_zero_zero : addA Dec.zero Dec.zero .none = Dec.zero := by rfl

lemma addA_zero_zero_b2 : addA Dec.zero Dec.zero (.bankers 2) = (⟨0, 2⟩ : Dec) := by rfl

lemma addA_zero_right (a : Dec) : addA a Dec.zero .none = decR40 a := by
  show decR40 (Dec.add a Dec.zero) = decR40 a
  rw [Dec.add_zero_eq]

lemma addA_zero2_right (a : Dec) : addA a ⟨0, 2⟩ .none = decR40 a := by
  show decR40 (Dec.add a ⟨0, 2⟩) = decR40 a
  apply decR40_value_det
  rw [Dec.toRat_add]
  have h : (⟨0, 2⟩ : Dec).toRat = 0 := by
    rw [Dec.toRat_mk]
    norm_num
  rw [h, add_zero]

lemma subA_err (a b : Dec) :
    |(subA a b .none).toRat - (a.toRat - b.toRat)| ≤ |a.toRat - b.toRat| / 10 ^ 38 := by
  have h := decR40_err (Dec.sub a b)
  rw [Dec.toRat_sub] at h
  exact h

lemma b2decR40_err (d : Dec) :
    |(applyRound (.bankers 2) (decR40 d)).toRat - d.toRat| ≤ 1 / 200 + |d.toRat| / 10 ^ 38 := by
  have h1 := applyRound_b2_err (decR40 d)
  have h2 := decR40_err d
  calc |(applyRound (.bankers 2) (decR40 d)).toRat - d.toRat|
      ≤ |(applyRound (.bankers 2) (decR40 d)).toRat - (decR40 d).toRat|
          + |(decR40 d).toRat - d.toRat| := abs_sub_le _ _ _
    _ ≤ 1 / 200 + |d.toRat| / 10 ^ 38 := add_le_add h1 h2

/-! ### `roundDownToCents` -/

/-- `roundDownToCents` floors the value down to hundredths. -/
lemma roundDownToCents_toRat (v : Dec) :
    (roundDownToCents v).toRat = ((⌊v.toRat * 100⌋ : ℤ) : ℚ) / 100 := by
  unfold roundDownToCents
  rw [Dec.toRat_mk]
  have harg : v.toRat * 100 = ((v.num * 100 : ℤ) : ℚ) / (((10 : ℤ) ^ v.exp : ℤ) : ℚ) := by
    unfold Dec.toRat
    rw [cast_pow10]
    push_cast
    ring
  rw [harg, int_floor_div _ _ (by positivity)]
  norm_num

lemma roundDownToCents_bounds (v : Dec) :
    v.toRat - 1 / 100 < (roundDownToCents v).toRat ∧ (roundDownToCents v).toRat ≤ v.toRat := by
  rw [roundDownToCents_toRat]
  have h1 := Int.floor_le (v.toRat * 100)
  have h2 := Int.lt_floor_add_one (v.toRat * 100)
  constructor
  · rw [lt_div_iff₀ (by norm_num : (0:ℚ) < 100)]
    linarith
  · rw [div_le_iff₀ (by norm_num : (0:ℚ) < 100)]
    linarith

/-! ### Calendar arithmetic -/

lemma daysInMonth_bounds (y m : ℤ) : 28 ≤ daysInMonth y m ∧ daysInMonth y m ≤ 31 := by
  unfold daysInMonth
  split_ifs <;> omega

lemma daysFromCivil_day (y m d : ℤ) :
    daysFromCivil ⟨y, m, d⟩ = daysFromCivil ⟨y, m, 1⟩ + (d - 1) := by
  simp only [daysFromCivil]
  ring

lemma daysFromCivil_next (y m : ℤ) (h1 : 1 ≤ m) (h2 : m ≤ 12) :
    daysFromCivil (if m < 12 then ⟨y, m + 1, 1⟩ else ⟨y + 1, 1, 1⟩)
      = daysFromCivil ⟨y, m, 1⟩ + daysInMonth y m := by
  interval_cases m <;>
    (simp only [daysFromCivil, daysInMonth, isLeapYear]
     norm_num
     first
      | (split_ifs <;> omega)
      | omega)

lemma addMonthsPreserveDay_succ_ym (t : CDate) (n : ℤ) :
    (addMonthsPreserveDay t (n + 1)).year
        = (if (addMonthsPreserveDay t n).month < 12
            then (addMonthsPreserveDay t n).year else (addMonthsPreserveDay t n).year + 1)
    ∧ (addMonthsPreserveDay t (n + 1)).month
        = (if (addMonthsPreserveDay t n).month < 12
            then (addMonthsPreserveDay t n).month + 1 else 1) := by
  simp only [addMonthsPreserveDay]
  constructor <;> (split_ifs <;> omega)

lemma addMonthsPreserveDay_fields (t : CDate) (n : ℤ) :
    1 ≤ (addMonthsPreserveDay t n).month ∧ (addMonthsPreserveDay t n).month ≤ 12
    ∧ (addMonthsPreserveDay t n).day
        = min t.day (daysInMonth (addMonthsPreserveDay t n).year
            (addMonthsPreserveDay t n).month) := by
  simp only [addMonthsPreserveDay]
  refine ⟨by omega, by omega, by trivial⟩

lemma daysBetween_aMPD_succ (t : CDate) (ht : validDate t) (n : ℤ) :
    25 ≤ daysBetween (addMonthsPreserveDay t n) (addMonthsPreserveDay t (n + 1))
    ∧ daysBetween (addMonthsPreserveDay t n) (addMonthsPreserveDay t (n + 1)) ≤ 34 := by
  obtain ⟨hm1, hm2, hd⟩ := addMonthsPreserveDay_fields t n
  obtain ⟨hm1', hm2', hd'⟩ := addMonthsPreserveDay_fields t (n + 1)
  obtain ⟨hy, hm⟩ := addMonthsPreserveDay_succ_ym t n
  set A := addMonthsPreserveDay t n with hA
  set B := addMonthsPreserveDay t (n + 1) with hB
  have hAeta : A = ⟨A.year, A.month, A.day⟩ := rfl
  have hBeta : B = ⟨B.year, B.month, B.day⟩ := rfl
  unfold daysBetween
  rw [hAeta, hBeta, daysFromCivil_day, daysFromCivil_day A.year A.month A.day]
  have hnext := daysFromCivil_next A.year A.month hm1 hm2
  have hdimA := daysInMonth_bounds A.year A.month
  have hdimB := daysInMonth_bounds B.year B.month
  have hday : 1 ≤ t.day := ht.2.2.1
  by_cases hc : A.month < 12
  · rw [if_pos hc] at hy hm hnext
    rw [hy, hm, hnext]
    omega
  · rw [if_neg hc] at hy hm hnext
    rw [hy, hm, hnext]
    omega

lemma addMonthsPreserveDay_zero (t : CDate) (ht : validDate t) :
    addMonthsPreserveDay t 0 = t := by
  obtain ⟨h1, h2, h3, h4⟩ := ht
  cases t with
  | mk y m d =>
    simp only [addMonthsPreserveDay, CDate.mk.injEq]
    simp only [] at h1 h2 h3 h4
    have harg1 : y + (m - 1 + 0) / 12 = y := by omega
    have harg2 : (m - 1 + 0) % 12 + 1 = m := by omega
    refine ⟨by omega, by omega, ?_⟩
    rw [harg1, harg2]
    exact min_eq_left h4

lemma buildPaymentSchedule_length (t : CDate) (n : ℕ) :
    (buildPaymentSchedule t n).length = n := by
  unfold buildPaymentSchedule
  rw [List.length_map, List.length_range]

lemma schedule_chain_aux (t0 : CDate) (ht : validDate t0) :
    ∀ (k : ℕ) (s : ℤ), List.Chain (fun x y => 0 ≤ daysBetween x y)
      (addMonthsPreserveDay t0 s)
      ((List.range k).map fun i : ℕ => addMonthsPreserveDay t0 (s + 1 + (i : ℤ))) := by
  intro k
  induction k with
  | zero =>
    intro s
    exact List.Chain.nil
  | succ m ih =>
    intro s
    rw [List.range_succ_eq_map m]
    simp only [List.map_cons, List.map_map, Nat.cast_zero, add_zero]
    refine List.Chain.cons ?_ ?_
    · have h := (daysBetween_aMPD_succ t0 ht s).1
      linarith
    · have hfun : ((fun i : ℕ => addMonthsPreserveDay t0 (s + 1 + (i : ℤ))) ∘ Nat.succ)
          = fun i : ℕ => addMonthsPreserveDay t0 ((s + 1) + 1 + (i : ℤ)) := by
        funext i
        simp only [Function.comp, Nat.succ_eq_add_one]
        congr 1
        push_cast
        ring
      rw [hfun]
      exact ih (s + 1)

lemma schedule_chain (t0 : CDate) (ht : validDate t0) (n : ℕ) :
    List.Chain (fun x y => 0 ≤ daysBetween x y) t0 (buildPaymentSchedule t0 n) := by
  have h := schedule_chain_aux t0 ht n 0
  rw [addMonthsPreserveDay_zero t0 ht] at h
  have hfun : (fun i : ℕ => addMonthsPreserveDay t0 ((0 : ℤ) + 1 + (i : ℤ)))
      = fun i : ℕ => addMonthsPreserveDay t0 ((i : ℤ) + 1) := by
    funext i
    congr 1
    ring
  rw [hfun] at h
  exact h

/-! ### Constructor and step lemmas for the simulator -/

lemma ebind_ok {α β : Type} (a : α) (f : α → Except Err β) :
    (Except.ok a : Except Err α).bind f = f a := rfl

lemma ebind_ok' {α β : Type} (a : α) (f : α → Except Err β) :
    (Except.ok a : Except Err α) >>= f = f a := rfl

instance {ε α : Type} [DecidableEq ε] [DecidableEq α] : DecidableEq (Except ε α)
  | .error x, .error y =>
    if h : x = y then .isTrue (by rw [h]) else .isFalse (fun hc => h (by injection hc))
  | .error _, .ok _ => .isFalse (fun hc => Except.noConfusion hc)
  | .ok _, .error _ => .isFalse (fun hc => Except.noConfusion hc)
  | .ok x, .ok y =>
    if h : x = y then .isTrue (by rw [h]) else .isFalse (fun hc => h (by injection hc))

lemma addA_zero_right_b2 (a : Dec) :
    addA a Dec.zero (.bankers 2) = applyRound (.bankers 2) (decR40 a) := by
  show applyRound (.bankers 2) (decR40 (Dec.add a Dec.zero)) = _
  rw [Dec.add_zero_eq]

lemma mkLoan_zero_rate (periodCount principal : Dec) (hn0 : Dec.isInt periodCount)
    (hn1 : 0 < periodCount.toInt) (hp : ¬ Dec.ltv principal Dec.zero) :
    mkLoan periodCount "MONTH".data Dec.zero principal
      = .ok ⟨periodCount.toInt, Dec.zero, principal, Dec.zero⟩ := by
  unfold mkLoan
  rw [if_neg (by push_neg; exact ⟨hn0, hn1⟩)]
  rw [if_neg hp]
  rw [if_neg (by decide : ¬ ¬ upperStr "MONTH".data = "MONTH".data)]
  rw [if_neg (by decide : ¬ Dec.ltv Dec.zero Dec.zero)]
  rfl

lemma mkDeposit_zero_apy (p : Dec) :
    mkDeposit p Dec.zero = .ok ⟨p, Dec.zero, Dec.zero, Dec.zero, Dec.zero⟩ := by rfl

lemma mkCC_ok (apr rr : Dec) (h1 : ¬ Dec.ltv apr Dec.zero) (h2 : ¬ Dec.ltv rr Dec.zero) :
    mkCC apr rr = .ok ⟨apr, rr, divANZ apr ⟨365, 0⟩ .none⟩ := by
  unfold mkCC
  rw [if_neg h1, if_neg h2]

lemma calculateRewards_ok (c : CCAccount) (p : Dec) (hp : ¬ Dec.ltv p Dec.zero) :
    calculateRewards c p = .ok (mulA p c.rewardsRate (.bankers 2)) := by
  unfold calculateRewards
  rw [if_neg hp]

lemma interestForDays_ok (c : CCAccount) (b : Dec) (days : ℤ) (hd : 0 ≤ days)
    (hb : ¬ Dec.ltv b Dec.zero) : ∃ v, interestForDays c b days = .ok v := by
  unfold interestForDays
  rw [if_neg (by omega), if_neg hb]
  by_cases h : Dec.eqv b Dec.zero ∨ days = 0 ∨ Dec.eqv c.dailyRate Dec.zero
  · rw [if_pos h]
    exact ⟨_, rfl⟩
  · rw [if_neg h]
    exact ⟨_, rfl⟩

/-! ### Zero-rate behavior of the deposit account -/

lemma accrueLoop_zeroRate (a : DAccount) (hr : a.dailyRate = Dec.zero) :
    ∀ n : ℕ, accrueLoop a n = Dec.zero := by
  intro n
  induction n with
  | zero => rfl
  | succ k ih =>
    show addA (accrueLoop a k)
        (mulA (addA a.balance (accrueLoop a k) .none) a.dailyRate .none) .none = Dec.zero
    rw [ih, hr, mulA_zero_right, addA_zero_zero]

lemma intDec_isInt (n : ℤ) : Dec.isInt (⟨n, 0⟩ : Dec) := by
  unfold Dec.isInt
  simp

lemma intDec_not_ltv_zero (n : ℤ) (hn : 0 ≤ n) : ¬ Dec.ltv (⟨n, 0⟩ : Dec) Dec.zero := by
  unfold Dec.ltv Dec.zero
  simp
  omega

lemma accrueForDays_zeroRate (a : DAccount) (n : ℤ) (hn : 0 ≤ n)
    (hr : a.dailyRate = Dec.zero) :
    ∃ b, accrueForDays a (.num ⟨n, 0⟩) = .ok b
      ∧ (b.balance = a.balance ∨ b.balance = applyRound (.bankers 2) (decR40 a.balance))
      ∧ b.dailyRate = Dec.zero := by
  simp only [accrueForDays]
  rw [if_neg (not_not_intro (intDec_isInt n))]
  rw [if_neg (intDec_not_ltv_zero n hn)]
  by_cases heq : Dec.eqv (⟨n, 0⟩ : Dec) Dec.zero
  · rw [if_pos heq]
    exact ⟨a, rfl, Or.inl rfl, hr⟩
  · rw [if_neg heq]
    refine ⟨_, rfl, Or.inr ?_, ?_⟩
    · show (postAccrual a (accrueLoop a ((⟨n, 0⟩ : Dec).toInt.toNat))).balance = _
      rw [accrueLoop_zeroRate a hr]
      show addA a.balance Dec.zero (.bankers 2) = _
      exact addA_zero_right_b2 a.balance
    · show (postAccrual a _).dailyRate = Dec.zero
      exact hr

lemma decR40_zero : decR40 Dec.zero = Dec.zero := rfl

lemma mpStep_zeroRate_fields (a : DAccount) (t : CDate) (hr : a.dailyRate = Dec.zero)
    (hp : a.pendingInterest = Dec.zero) :
    ((mpStep a t).balance = a.balance ∨ (mpStep a t).balance = decR40 a.balance)
    ∧ (mpStep a t).pendingInterest = Dec.zero
    ∧ (mpStep a t).dailyRate = Dec.zero := by
  simp only [mpStep, hp, hr, addA_zero_right, mulA_zero_right, addA_zero_zero, decR40_zero,
    addA_zero_zero_b2, addA_zero2_right]
  split_ifs with hd
  · exact ⟨Or.inr rfl, rfl, rfl⟩
  · exact ⟨Or.inl rfl, rfl, rfl⟩

lemma mpLoop_zeroRate : ∀ (k : ℕ) (a : DAccount) (t : CDate),
    a.dailyRate = Dec.zero → a.pendingInterest = Dec.zero →
    ((mpLoop a t k).balance = a.balance ∨ (mpLoop a t k).balance = decR40 a.balance)
    ∧ (mpLoop a t k).pendingInterest = Dec.zero
    ∧ (mpLoop a t k).dailyRate = Dec.zero := by
  intro k
  induction k with
  | zero =>
    intro a t hr hp
    exact ⟨Or.inl rfl, hp, hr⟩
  | succ m ih =>
    intro a t hr hp
    have hunf : mpLoop a t (m + 1) = mpLoop (mpStep a t) (dateSucc t) m := rfl
    rw [hunf]
    obtain ⟨hbal, hpend, hrate⟩ := mpStep_zeroRate_fields a t hr hp
    obtain ⟨ih1, ih2, ih3⟩ := ih (mpStep a t) (dateSucc t) hrate hpend
    refine ⟨?_, ih2, ih3⟩
    rcases ih1 with ih1 | ih1 <;> rcases hbal with hbal | hbal
    · exact Or.inl (ih1.trans hbal)
    · exact Or.inr (ih1.trans hbal)
    · exact Or.inr (ih1.trans (congrArg decR40 hbal))
    · exact Or.inr ((ih1.trans (congrArg decR40 hbal)).trans (decR40_decR40 a.balance))

lemma accrueMP_zeroRate (a : DAccount) (t : CDate) (n : ℤ) (hn : 0 ≤ n)
    (hr : a.dailyRate = Dec.zero) (hp : a.pendingInterest = Dec.zero) :
    ∃ b, accrueForDaysWithMonthlyPosting a (.num ⟨n, 0⟩) t = .ok b
      ∧ (b.balance = a.balance ∨ b.balance = decR40 a.balance)
      ∧ b.pendingInterest = Dec.zero ∧ b.dailyRate = Dec.zero := by
  simp only [accrueForDaysWithMonthlyPosting]
  rw [if_neg (not_not_intro (intDec_isInt n))]
  rw [if_neg (intDec_not_ltv_zero n hn)]
  by_cases heq : Dec.eqv (⟨n, 0⟩ : Dec) Dec.zero
  · rw [if_pos heq]
    exact ⟨a, rfl, Or.inl rfl, hp, hr⟩
  · rw [if_neg heq]
    obtain ⟨h1, h2, h3⟩ := mpLoop_zeroRate ((⟨n, 0⟩ : Dec).toInt.toNat) a t hr hp
    exact ⟨_, rfl, h1, h2, h3⟩

lemma withdrawAmt_ok (a : DAccount) (w : Dec) (hw : ¬ Dec.ltv w Dec.zero) :
    ∃ b, withdrawAmt a w = .ok b ∧ b.balance = subA a.balance w .none
      ∧ b.pendingInterest = a.pendingInterest ∧ b.dailyRate = a.dailyRate := by
  unfold withdrawAmt
  rw [if_neg hw]
  exact ⟨_, rfl, rfl, rfl, rfl⟩

lemma Dec.num_pos_iff (d : Dec) : 0 < d.toRat ↔ 0 < d.num := by
  unfold Dec.toRat
  constructor
  · intro h
    rcases lt_trichotomy d.num 0 with hneg | hz | hpos
    · exfalso
      have h1 : ((d.num : ℚ)) < 0 := by exact_mod_cast hneg
      have h2 : (d.num : ℚ) / 10 ^ d.exp < 0 := div_neg_of_neg_of_pos h1 (Dec.pow10_pos d.exp)
      linarith
    · exfalso
      rw [hz] at h
      simp at h
    · exact hpos
  · intro h
    exact div_pos (by exact_mod_cast h) (Dec.pow10_pos d.exp)

/-- The level payment of a zero-rate loan: within one cent per period of the
exact `principal / periodCount`, never negative, and borrower-favorable. -/
lemma payment_zero_rate (L : LoanAccount) (hrate : L.periodicRate = Dec.zero)
    (hp0 : 0 < L.principal.toRat) (hn : 0 < L.periodCount) :
    ∃ pay, payment L = .ok pay ∧ ¬ Dec.ltv pay Dec.zero ∧ 0 ≤ pay.toRat
      ∧ pay.toRat ≤ 2 * L.principal.toRat
      ∧ |L.principal.toRat - (L.periodCount : ℚ) * pay.toRat|
          ≤ (L.periodCount : ℚ) * (1 / 100) + L.principal.toRat / 10 ^ 38 := by
  have hpneq : ¬ Dec.eqv L.principal Dec.zero := by
    rw [Dec.eqv_zero_iff]
    linarith
  have hreq : Dec.eqv L.periodicRate Dec.zero := by
    rw [hrate]
    decide
  have hnQ : (0 : ℚ) < (L.periodCount : ℚ) := by exact_mod_cast hn
  have hdvneq : ¬ Dec.eqv (⟨L.periodCount, 0⟩ : Dec) Dec.zero := by
    unfold Dec.eqv Dec.zero
    simp
    omega
  have key : payment L = .ok (roundDownToCents (roundSig40 (L.principal.num * 10 ^ (0 : ℕ))
      (L.periodCount * 10 ^ L.principal.exp))) := by
    unfold payment calculatePaymentAmount
    rw [if_neg hpneq, if_pos hreq]
    unfold divA
    rw [if_neg hdvneq]
    rfl
  set q := roundSig40 (L.principal.num * 10 ^ (0 : ℕ))
    (L.periodCount * 10 ^ L.principal.exp) with hqdef
  set x : ℚ := L.principal.toRat / (L.periodCount : ℚ) with hx
  have hx0 : 0 < x := div_pos hp0 hnQ
  have hnum0 : 0 < L.principal.num := (Dec.num_pos_iff L.principal).mp hp0
  have hq0 : (L.periodCount * 10 ^ L.principal.exp : ℤ) ≠ 0 := by
    have h10 : (0 : ℤ) < 10 ^ L.principal.exp := by positivity
    exact (mul_pos hn h10).ne'
  have hval : ((L.principal.num * 10 ^ (0 : ℕ) : ℤ) : ℚ)
      / ((L.periodCount * 10 ^ L.principal.exp : ℤ) : ℚ) = x := by
    rw [hx]
    unfold Dec.toRat
    push_cast
    ring
  have herr := roundSig40_err (L.principal.num * 10 ^ (0 : ℕ))
      (L.periodCount * 10 ^ L.principal.exp) hq0
  rw [hval, abs_of_pos hx0] at herr
  rw [← hqdef] at herr
  have hqnn : 0 ≤ q.toRat := by
    rw [hqdef]
    exact roundSig40_nonneg _ _ (by positivity) (by positivity)
  obtain ⟨hb1, hb2⟩ := roundDownToCents_bounds q
  have hpaynn : 0 ≤ (roundDownToCents q).toRat := by
    rw [roundDownToCents_toRat]
    have hfl : (0 : ℤ) ≤ ⌊q.toRat * 100⌋ := Int.floor_nonneg.mpr (by positivity)
    have hflQ : (0 : ℚ) ≤ ((⌊q.toRat * 100⌋ : ℤ) : ℚ) := by exact_mod_cast hfl
    linarith
  obtain ⟨herrlo, herrhi⟩ := abs_le.mp herr
  have hn1Q : (1 : ℚ) ≤ (L.periodCount : ℚ) := by
    have : (1 : ℤ) ≤ L.periodCount := hn
    exact_mod_cast this
  have hxp : x ≤ L.principal.toRat := div_le_self hp0.le hn1Q
  have hxe : x / 10 ^ 38 ≤ x := div_le_self hx0.le (by norm_num)
  refine ⟨roundDownToCents q, key, ?_, hpaynn, ?_, ?_⟩
  · rw [Dec.ltv_zero_iff]
    exact not_lt.mpr hpaynn
  · linarith
  · have hnx : (L.periodCount : ℚ) * x = L.principal.toRat := by
      rw [hx]
      field_simp
    have h1 : x - (roundDownToCents q).toRat ≤ x / 10 ^ 38 + 1 / 100 := by linarith
    have h2 : -(x / 10 ^ 38) ≤ x - (roundDownToCents q).toRat := by linarith
    have hsub : L.principal.toRat - (L.periodCount : ℚ) * (roundDownToCents q).toRat
        = (L.periodCount : ℚ) * (x - (roundDownToCents q).toRat) := by
      rw [← hnx]
      ring
    have hup := mul_le_mul_of_nonneg_left h1 hnQ.le
    have hlo := mul_le_mul_of_nonneg_left h2 hnQ.le
    have hexp1 : (L.periodCount : ℚ) * (x / 10 ^ 38 + 1 / 100)
        = L.principal.toRat / 10 ^ 38 + (L.periodCount : ℚ) * (1 / 100) := by
      rw [← hnx]
      ring
    have hexp2 : (L.periodCount : ℚ) * (-(x / 10 ^ 38)) = -(L.principal.toRat / 10 ^ 38) := by
      rw [← hnx]
      ring
    rw [hsub, abs_le]
    constructor
    · rw [hexp2] at hlo
      linarith
    · rw [hexp1] at hup
      linarith

/-- In idealized mode with a zero daily rate, the balance after `k` periods is
within `k` cents of `balance - k * payment`. -/
lemma idealLoop_bound (pay : Dec) (dpp : ℤ) (hdpp : 0 ≤ dpp)
    (hpay : ¬ Dec.ltv pay Dec.zero) (C : ℚ) (hCe : C * 1000 ≤ 10 ^ 38) :
    ∀ (k : ℕ) (a : DAccount), a.dailyRate = Dec.zero →
      |a.balance.toRat| + (k : ℚ) * (pay.toRat + 1) ≤ C →
      ∃ b, idealLoop pay dpp a k = .ok b ∧ b.dailyRate = Dec.zero ∧
        |b.balance.toRat - (a.balance.toRat - (k : ℚ) * pay.toRat)| ≤ (k : ℚ) * (1 / 100) := by
  have hpay0 : 0 ≤ pay.toRat := not_lt.mp (by rwa [Dec.ltv_zero_iff] at hpay)
  intro k
  induction k with
  | zero =>
    intro a hr hcap
    refine ⟨a, rfl, hr, ?_⟩
    simp
  | succ m ih =>
    intro a hr hcap
    have hmQ : ((m + 1 : ℕ) : ℚ) = (m : ℚ) + 1 := by push_cast; ring
    rw [hmQ] at hcap
    have hm0 : (0 : ℚ) ≤ (m : ℚ) := by positivity
    have hP1 : (0 : ℚ) ≤ pay.toRat + 1 := by linarith
    have hprod0 : (0 : ℚ) ≤ ((m : ℚ) + 1) * (pay.toRat + 1) := mul_nonneg (by linarith) hP1
    have hcapC : |a.balance.toRat| ≤ C := by linarith
    have hmP : (0 : ℚ) ≤ (m : ℚ) * (pay.toRat + 1) := mul_nonneg hm0 hP1
    have hexpand : ((m : ℚ) + 1) * (pay.toRat + 1)
        = (m : ℚ) * (pay.toRat + 1) + (pay.toRat + 1) := by ring
    have hC1 : pay.toRat + 1 ≤ C := by
      have := abs_nonneg a.balance.toRat
      linarith
    obtain ⟨d1, hd1, hd1bal, hd1rate⟩ := accrueForDays_zeroRate a dpp hdpp hr
    obtain ⟨d2, hd2, hd2bal, _, hd2rate'⟩ := withdrawAmt_ok d1 pay hpay
    have hd2rate : d2.dailyRate = Dec.zero := hd2rate'.trans hd1rate
    have hb1err : |d1.balance.toRat - a.balance.toRat|
        ≤ 1 / 200 + |a.balance.toRat| / 10 ^ 38 := by
      rcases hd1bal with h | h
      · rw [h, sub_self, abs_zero]
        positivity
      · rw [h]
        exact b2decR40_err a.balance
    have hb1abs : |d1.balance.toRat| ≤ C + 1 / 200 + C / 10 ^ 38 := by
      have h1 := abs_sub_abs_le_abs_sub d1.balance.toRat a.balance.toRat
      linarith
    have hd2val : d2.balance.toRat = (subA d1.balance pay .none).toRat := by rw [hd2bal]
    have hsub' : |d2.balance.toRat - (d1.balance.toRat - pay.toRat)|
        ≤ |d1.balance.toRat - pay.toRat| / 10 ^ 38 := by
      rw [hd2val]
      exact subA_err d1.balance pay
    have habsP : |pay.toRat| = pay.toRat := abs_of_nonneg hpay0
    have habs2 : |d1.balance.toRat - pay.toRat| ≤ 2 * C + 1 / 200 + C / 10 ^ 38 := by
      have h1 := abs_sub_le d1.balance.toRat 0 pay.toRat
      rw [sub_zero, zero_sub, abs_neg] at h1
      linarith
    have hstep : |d2.balance.toRat - (a.balance.toRat - pay.toRat)| ≤ 1 / 100 := by
      have htri := abs_sub_le d2.balance.toRat (d1.balance.toRat - pay.toRat)
        (a.balance.toRat - pay.toRat)
      have hmid : |(d1.balance.toRat - pay.toRat) - (a.balance.toRat - pay.toRat)|
          = |d1.balance.toRat - a.balance.toRat| := by
        congr 1
        ring
      rw [hmid] at htri
      linarith
    have hinv : |d2.balance.toRat| + (m : ℚ) * (pay.toRat + 1) ≤ C := by
      have h1 : |d2.balance.toRat| ≤ |a.balance.toRat - pay.toRat| + 1 / 100 := by
        have := abs_sub_abs_le_abs_sub d2.balance.toRat (a.balance.toRat - pay.toRat)
        linarith
      have h2 : |a.balance.toRat - pay.toRat| ≤ |a.balance.toRat| + pay.toRat := by
        have h3 := abs_sub_le a.balance.toRat 0 pay.toRat
        rw [sub_zero, zero_sub, abs_neg] at h3
        linarith
      linarith
    obtain ⟨b, hb, hbrate, hberr⟩ := ih d2 hd2rate hinv
    have hunf : idealLoop pay dpp a (m + 1)
        = (accrueForDays a (.num ⟨dpp, 0⟩)).bind fun d1 =>
            (withdrawAmt d1 pay).bind fun d2 => idealLoop pay dpp d2 m := rfl
    refine ⟨b, ?_, hbrate, ?_⟩
    · rw [hunf, hd1, ebind_ok, hd2, ebind_ok]
      exact hb
    · have htri := abs_sub_le b.balance.toRat (d2.balance.toRat - (m : ℚ) * pay.toRat)
        (a.balance.toRat - ((m : ℚ) + 1) * pay.toRat)
      have hmid : |(d2.balance.toRat - (m : ℚ) * pay.toRat)
            - (a.balance.toRat - ((m : ℚ) + 1) * pay.toRat)|
          = |d2.balance.toRat - (a.balance.toRat - pay.toRat)| := by
        congr 1
        ring
      rw [hmid] at htri
      rw [hmQ]
      linarith

/-- In real-world mode with a zero daily rate and an all-nonnegative-gap due
schedule, the loop never throws and the final balance is within one cent per
period of `balance - length * payment`. -/
lemma rwLoop_bound (pay : Dec) (hpay : ¬ Dec.ltv pay Dec.zero)
    (C : ℚ) (hCe : C * 1000 ≤ 10 ^ 38) :
    ∀ (sch : List CDate) (a : DAccount) (anchor : CDate),
      a.dailyRate = Dec.zero → a.pendingInterest = Dec.zero →
      List.Chain (fun x y => 0 ≤ daysBetween x y) anchor sch →
      |a.balance.toRat| + (sch.length : ℚ) * (pay.toRat + 1) ≤ C →
      ∃ b, rwLoop pay a anchor sch = .ok b ∧
        |b.balance.toRat - (a.balance.toRat - (sch.length : ℚ) * pay.toRat)|
          ≤ (sch.length : ℚ) * (1 / 100) := by
  have hpay0 : 0 ≤ pay.toRat := not_lt.mp (by rwa [Dec.ltv_zero_iff] at hpay)
  intro sch
  induction sch with
  | nil =>
    intro a anchor hr hp hchain hcap
    refine ⟨a, rfl, ?_⟩
    simp
  | cons due rest ih =>
    intro a anchor hr hp hchain hcap
    cases hchain with
    | cons hgap hchain' =>
      have hlen : ((due :: rest).length : ℚ) = (rest.length : ℚ) + 1 := by
        simp
      rw [hlen] at hcap
      have hm0 : (0 : ℚ) ≤ (rest.length : ℚ) := by positivity
      have hP1 : (0 : ℚ) ≤ pay.toRat + 1 := by linarith
      have hprod0 : (0 : ℚ) ≤ ((rest.length : ℚ) + 1) * (pay.toRat + 1) :=
        mul_nonneg (by linarith) hP1
      have hcapC : |a.balance.toRat| ≤ C := by linarith
      have hmP : (0 : ℚ) ≤ (rest.length : ℚ) * (pay.toRat + 1) := mul_nonneg hm0 hP1
      have hexpand : ((rest.length : ℚ) + 1) * (pay.toRat + 1)
          = (rest.length : ℚ) * (pay.toRat + 1) + (pay.toRat + 1) := by ring
      have hC1 : pay.toRat + 1 ≤ C := by
        have := abs_nonneg a.balance.toRat
        linarith
      obtain ⟨d1, hd1, hd1bal, hd1pend, hd1rate⟩ :=
        accrueMP_zeroRate a anchor (daysBetween anchor due) hgap hr hp
      obtain ⟨d2, hd2, hd2bal, hd2pend', hd2rate'⟩ := withdrawAmt_ok d1 pay hpay
      have hd2rate : d2.dailyRate = Dec.zero := hd2rate'.trans hd1rate
      have hd2pend : d2.pendingInterest = Dec.zero := hd2pend'.trans hd1pend
      have hb1err : |d1.balance.toRat - a.balance.toRat| ≤ |a.balance.toRat| / 10 ^ 38 := by
        rcases hd1bal with h | h
        · rw [h, sub_self, abs_zero]
          positivity
        · rw [h]
          exact decR40_err a.balance
      have hb1abs : |d1.balance.toRat| ≤ C + C / 10 ^ 38 := by
        have h1 := abs_sub_abs_le_abs_sub d1.balance.toRat a.balance.toRat
        linarith
      have hd2val : d2.balance.toRat = (subA d1.balance pay .none).toRat := by rw [hd2bal]
      have hsub' : |d2.balance.toRat - (d1.balance.toRat - pay.toRat)|
          ≤ |d1.balance.toRat - pay.toRat| / 10 ^ 38 := by
        rw [hd2val]
        exact subA_err d1.balance pay
      have habsP : |pay.toRat| = pay.toRat := abs_of_nonneg hpay0
      have habs2 : |d1.balance.toRat - pay.toRat| ≤ 2 * C + C / 10 ^ 38 := by
        have h1 := abs_sub_le d1.balance.toRat 0 pay.toRat
        rw [sub_zero, zero_sub, abs_neg] at h1
        linarith
      have hstep : |d2.balance.toRat - (a.balance.toRat - pay.toRat)| ≤ 1 / 100 := by
        have htri := abs_sub_le d2.balance.toRat (d1.balance.toRat - pay.toRat)
          (a.balance.toRat - pay.toRat)
        have hmid : |(d1.balance.toRat - pay.toRat) - (a.balance.toRat - pay.toRat)|
            = |d1.balance.toRat - a.balance.toRat| := by
          congr 1
          ring
        rw [hmid] at htri
        linarith
      have hinv : |d2.balance.toRat| + (rest.length : ℚ) * (pay.toRat + 1) ≤ C := by
        have h1 : |d2.balance.toRat| ≤ |a.balance.toRat - pay.toRat| + 1 / 100 := by
          have := abs_sub_abs_le_abs_sub d2.balance.toRat (a.balance.toRat - pay.toRat)
          linarith
        have h2 : |a.balance.toRat - pay.toRat| ≤ |a.balance.toRat| + pay.toRat := by
          have h3 := abs_sub_le a.balance.toRat 0 pay.toRat
          rw [sub_zero, zero_sub, abs_neg] at h3
          linarith
        linarith
      obtain ⟨b, hb, hberr⟩ := ih d2 due hd2rate hd2pend hchain' hinv
      have hunf : rwLoop pay a anchor (due :: rest)
          = if daysBetween anchor due < 0 then .error .invalidSchedule
            else (accrueForDaysWithMonthlyPosting a (.num ⟨daysBetween anchor due, 0⟩)
                anchor).bind fun d1 =>
              (withdrawAmt d1 pay).bind fun d2 => rwLoop pay d2 due rest := rfl
      refine ⟨b, ?_, ?_⟩
      · rw [hunf, if_neg (not_lt.mpr hgap), hd1, ebind_ok, hd2, ebind_ok]
        exact hb
      · have htri := abs_sub_le b.balance.toRat
          (d2.balance.toRat - (rest.length : ℚ) * pay.toRat)
          (a.balance.toRat - ((rest.length : ℚ) + 1) * pay.toRat)
        have hmid : |(d2.balance.toRat - (rest.length : ℚ) * pay.toRat)
              - (a.balance.toRat - ((rest.length : ℚ) + 1) * pay.toRat)|
            = |d2.balance.toRat - (a.balance.toRat - pay.toRat)| := by
          congr 1
          ring
        rw [hmid] at htri
        rw [hlen]
        linarith

/-! ### Claim C1 -/

/-- Which object an `Amount` method hands back to its caller: a freshly
allocated instance, or the receiver object itself. -/
inductive RetId where
  | fresh
  | selfRef
  deriving DecidableEq, Repr

/-- `Amount.nthRoot` together with the identity of the returned object: the
source's `if (exponent === 1) return this;` returns the receiver itself,
while every other successful path allocates (`new Amount(0)` or
`Amount.#fromDecimal`, which constructs a new `Amount`). -/
def nthRootR (a : Dec) (n : ℤ) (o : RoundOpt) : Except Err (Dec × RetId) :=
  if n ≤ 0 then .error .invalidExponent
  else if Dec.ltv a Dec.zero then .error .negativeRadicand
  else if n = 1 then .ok (a, .selfRef)
  else if Dec.eqv a Dec.zero then .ok (Dec.zero, .fresh)
  else .ok (applyRound o (decNthRoot40 n.toNat a), .fresh)

/-- C7 (corrected): `Amount.nthRoot` breaks the every-method-returns-a-fresh-
instance rule exactly at exponent `1`, where it returns the receiver
itself (aliasing); for every other successful input it allocates.  The
value it returns agrees with the value-level `nthRootA` in all cases. -/
theorem C7_nthRoot_alias (a : Dec) (n : ℤ) (o : RoundOpt) :
    (∀ v r, nthRootR a n o = .ok (v, r) → (r = RetId.selfRef ↔ n = 1))
    ∧ (∀ v r, nthRootR a n o = .ok (v, r) → r = RetId.selfRef → v = a)
    ∧ (nthRootR a n o).map Prod.fst = nthRootA a n o := by
  refine ⟨?_, ?_, ?_⟩
  · intro v r h
    unfold nthRootR at h
    split_ifs at h with h1 h2 h3 h4
    · injection h with h'
      cases h'
      exact iff_of_true rfl h3
    · injection h with h'
      cases h'
      exact iff_of_false (by simp) h3
    · injection h with h'
      cases h'
      exact iff_of_false (by simp) h3
  · intro v r h hr
    unfold nthRootR at h
    split_ifs at h with h1 h2 h3 h4
    · injection h with h'
      cases h'
      rfl
    · injection h with h'
      cases h'
      exact absurd hr (by simp)
    · injection h with h'
      cases h'
      exact absurd hr (by simp)
  · unfold nthRootR nthRootA
    split_ifs with h1 h2 h3 h4 <;> rfl

/-- Counterexample to C7 as stated: `nthRoot` with exponent `1` returns the
receiver object itself, not a new instance. -/
theorem C7_nthRoot_one_returns_receiver :
    nthRootR ⟨5, 0⟩ 1 .none = .ok (⟨5, 0⟩, RetId.selfRef)
    ∧ RetId.selfRef ≠ RetId.fresh := by decide

/-! ### Claim C8 -/

/-- C8 (corrected): `withdraw` rejects a negative amount with the
withdrawal error, but a non-finite amount dies earlier, inside the `Amount`
constructor, with the constructor's invalid-value error — not
`InvalidWithdrawal`.  Every non-negative finite amount succeeds with no
insufficient-funds check, decreasing the balance by the amount up to the
40-significant-digit precision rounding of the subtraction (not always
exactly). -/
theorem C8_withdraw_rules (a : DAccount) (w : Dec) :
    withdraw a .nonfinite = .error .invalidValue
    ∧ (w.toRat < 0 → withdraw a (.num w) = .error .invalidWithdrawal)
    ∧ (0 ≤ w.toRat → ∃ b, withdraw a (.num w) = .ok b
        ∧ |b.balance.toRat - (a.balance.toRat - w.toRat)|
            ≤ |a.balance.toRat - w.toRat| / 10 ^ 38
        ∧ b.apy = a.apy ∧ b.dailyRate = a.dailyRate
        ∧ b.interestAccrued = a.interestAccrued
        ∧ b.pendingInterest = a.pendingInterest) := by
  refine ⟨rfl, ?_, ?_⟩
  · intro hw
    show withdrawAmt a w = _
    unfold withdrawAmt
    rw [if_pos (by rwa [Dec.ltv_zero_iff])]
  · intro hw
    have hltv : ¬ Dec.ltv w Dec.zero := by
      rw [Dec.ltv_zero_iff]
      linarith
    refine ⟨{a with balance := subA a.balance w .none}, ?_, ?_, rfl, rfl, rfl, rfl⟩
    · show withdrawAmt a w = _
      unfold withdrawAmt
      rw [if_neg hltv]
    · exact subA_err a.balance w

/-- Counterexample to C8 as stated: a non-finite withdrawal fails with the
`Amount` constructor's invalid-value error, a different error from the
claimed `InvalidWithdrawal`. -/
theorem C8_nonfinite_error_type :
    withdraw ⟨⟨100, 0⟩, Dec.zero, Dec.zero, Dec.zero, Dec.zero⟩ .nonfinite
        = .error .invalidValue
    ∧ Err.invalidValue ≠ Err.invalidWithdrawal := by decide

/-! ### Claim C9 -/

/-- Modelled from the spec's words, for comparison with the source's
`addMonthsPreserveDay`: the date `n` calendar months after `t` (total month
index arithmetic) with the same day-of-month, clamped to the last valid day
of the target month. -/
def addMonthsSpec (t : CDate) (n : ℤ) : CDate :=
  let ym := 12 * t.year + (t.month - 1) + n
  let y := ym / 12
  let m := ym % 12 + 1
  ⟨y, m, min t.day (daysInMonth y m)⟩

/-- C10 (confirmed): any `mode` other than a string lowercasing to `real`
or `real-world` — misspellings, arbitrary strings, non-string values —
behaves exactly like the idealized mode; the mode dispatch never raises. -/
theorem C10_unrecognized_mode_idealized (pd : JSNum) (p pc lr apy ccR ccRate : Dec)
    (mode : ModeInput) (sd : Option CDate)
    (h : ∀ s, mode = .str s → ¬ (lowerStr s = "real".data ∨ lowerStr s = "real-world".data)) :
    simulateScenario pd p pc lr apy ccR ccRate mode sd
      = simulateScenario pd p pc lr apy ccR ccRate (.str "idealized".data) sd := by
  have hm : ¬ isRealMode mode := by
    cases mode with
    | str s => exact h s rfl
    | nonString => exact fun hc => hc
  have hm2 : ¬ isRealMode (.str "idealized".data) := by decide
  simp only [simulateScenario, if_neg hm, if_neg hm2]

/-- Witness for C10: the misspelled mode string `Production` selects
idealized mode. -/
theorem C10_unrecognized_mode_idealized_witness :
    simulateScenario (.num ⟨31, 0⟩) ⟨100, 0⟩ ⟨2, 0⟩ Dec.zero Dec.zero Dec.zero Dec.zero
        (.str "Production".data) none
      = simulateScenario (.num ⟨31, 0⟩) ⟨100, 0⟩ ⟨2, 0⟩ Dec.zero Dec.zero Dec.zero Dec.zero
        (.str "idealized".data) none :=
  C10_unrecognized_mode_idealized (.num ⟨31, 0⟩) ⟨100, 0⟩ ⟨2, 0⟩ Dec.zero Dec.zero Dec.zero
    Dec.zero (.str "Production".data) none (fun s hs => by
      cases hs
      decide)

/-! ### Claim C5 -/

/-- C2 (corrected): `accrueForDays` validates the day count as claimed
(non-finite, non-integer and negative all fail with the day-count error,
zero is a no-op), and compounds daily through `accrueLoop`; but the final
posting bankers-rounds the UPDATED BALANCE (old balance plus accrued
interest) to cents, not the posted delta, and the `interestAccrued` counter
receives the difference between that rounded balance and the old balance —
which can even be negative (see the counterexample). -/
theorem C2_accrueForDays_posting (a : DAccount) (d : Dec) :
    accrueForDays a .nonfinite = .error .invalidDayCount
    ∧ (¬ Dec.isInt d → accrueForDays a (.num d) = .error .invalidDayCount)
    ∧ (d.toRat < 0 → accrueForDays a (.num d) = .error .invalidDayCount)
    ∧ (d.toRat = 0 → accrueForDays a (.num d) = .ok a)
    ∧ (Dec.isInt d → 0 < d.toRat →
        ∃ b, accrueForDays a (.num d) = .ok b
          ∧ b.balance.toRat = ((rheQ ((decR40 (Dec.add a.balance
                (accrueLoop a d.toInt.toNat))).toRat * 100) : ℤ) : ℚ) / 100
          ∧ b.interestAccrued = addA a.interestAccrued (subA b.balance a.balance .none) .none
          ∧ b.apy = a.apy ∧ b.dailyRate = a.dailyRate
          ∧ b.pendingInterest = a.pendingInterest) := by
  refine ⟨rfl, ?_, ?_, ?_, ?_⟩
  · intro h
    simp only [accrueForDays]
    rw [if_pos h]
  · intro h
    by_cases hint : Dec.isInt d
    · simp only [accrueForDays]
      rw [if_neg (not_not_intro hint), if_pos (by rwa [Dec.ltv_zero_iff])]
    · simp only [accrueForDays]
      rw [if_pos hint]
  · intro h
    have hnum : d.num = 0 := (Dec.toRat_eq_zero_iff d).mp h
    have hint : Dec.isInt d := by
      unfold Dec.isInt
      rw [hnum]
      exact dvd_zero _
    simp only [accrueForDays]
    rw [if_neg (not_not_intro hint)]
    rw [if_neg (by rw [Dec.ltv_zero_iff]; linarith)]
    rw [if_pos (by rwa [Dec.eqv_zero_iff])]
  · intro hint hpos
    simp only [accrueForDays]
    rw [if_neg (not_not_intro hint)]
    rw [if_neg (by rw [Dec.ltv_zero_iff]; linarith)]
    rw [if_neg (by rw [Dec.eqv_zero_iff]; linarith)]
    refine ⟨_, rfl, ?_, rfl, rfl, rfl, rfl⟩
    exact applyRound_b2_toRat (decR40 (Dec.add a.balance (accrueLoop a d.toInt.toNat)))

/-- Counterexample to C2 as stated: a zero-APY account holding half a cent.
One day of accrual produces exactly zero interest, so rounding the posted
delta would leave the account unchanged; the code instead bankers-rounds
the updated balance 0.005 down to 0.00 — the balance changes with zero
interest accrued, and the posted "interest" is -0.005. -/
theorem C2_posts_rounded_balance_not_delta :
    ∃ b, accrueForDays ⟨⟨5, 3⟩, Dec.zero, Dec.zero, Dec.zero, Dec.zero⟩ (.num ⟨1, 0⟩) = .ok b
      ∧ Dec.eqv (accrueLoop ⟨⟨5, 3⟩, Dec.zero, Dec.zero, Dec.zero, Dec.zero⟩ 1) Dec.zero
      ∧ ¬ Dec.eqv b.balance ⟨5, 3⟩
      ∧ Dec.ltv b.interestAccrued Dec.zero := by
  exact ⟨_, rfl, by decide, by decide, by decide⟩

/-! ### Claim C3 -/

/-- The `i`-th simulated day of the day-by-day walk (iterated `addDays 1`). -/
def dateN (t : CDate) : ℕ → CDate
  | 0 => t
  | k + 1 => dateN (dateSucc t) k

/-- The pending accumulator after one simulated day: the first half of the
loop body of `accrueForDaysWithMonthlyPosting` — daily interest on the
effective balance (posted balance plus pending interest) joins the pending
accumulator. -/
def pendingAfterDay (a : DAccount) : Dec :=
  addA a.pendingInterest (mulA (addA a.balance a.pendingInterest .none) a.dailyRate .none) .none

lemma mpStep_not_posting (a : DAccount) (t : CDate)
    (hd : ¬ isSameDay t (lastDayOfMonth t)) :
    mpStep a t = { a with pendingInterest := pendingAfterDay a } := by
  simp only [mpStep, pendingAfterDay]
  rw [if_neg hd]

lemma mpStep_posting (a : DAccount) (t : CDate) (hd : isSameDay t (lastDayOfMonth t)) :
    mpStep a t = { a with
      balance := addA a.balance (addA (pendingAfterDay a) Dec.zero (.bankers 2)) .none,
      interestAccrued :=
        addA a.interestAccrued (addA (pendingAfterDay a) Dec.zero (.bankers 2)) .none,
      pendingInterest := Dec.zero } := by
  simp only [mpStep, pendingAfterDay]
  rw [if_pos hd]

lemma mpLoop_no_posting : ∀ (k : ℕ) (a : DAccount) (t : CDate),
    (∀ i : ℕ, i < k → ¬ isSameDay (dateN t i) (lastDayOfMonth (dateN t i))) →
    (mpLoop a t k).balance = a.balance
      ∧ (mpLoop a t k).interestAccrued = a.interestAccrued := by
  intro k
  induction k with
  | zero =>
    intro a t _
    exact ⟨rfl, rfl⟩
  | succ m ih =>
    intro a t h
    have hunf : mpLoop a t (m + 1) = mpLoop (mpStep a t) (dateSucc t) m := rfl
    have h0 : ¬ isSameDay t (lastDayOfMonth t) := h 0 (by omega)
    have hstep := mpStep_not_posting a t h0
    obtain ⟨ih1, ih2⟩ := ih (mpStep a t) (dateSucc t) (fun i hi => h (i + 1) (by omega))
    rw [hunf]
    have hb : (mpStep a t).balance = a.balance := by rw [hstep]
    have hi2 : (mpStep a t).interestAccrued = a.interestAccrued := by rw [hstep]
    exact ⟨ih1.trans hb, ih2.trans hi2⟩

/-- C3 (confirmed): in the monthly-posting walk, the posted balance and the
cumulative interest counter are untouched through any run of days none of
which is the last day of its month; each day's interest is computed against
the effective balance (posted balance + pending interest, so pending
interest compounds) and joins the pending accumulator; and exactly on a
month's last day the pending accumulator — bankers-rounded to cents —
is added to the balance while the accumulator restarts at `Dec.zero`, the
sub-cent remainder being discarded. -/
theorem C3_monthly_posting_invariant (a : DAccount) (t : CDate) (k : ℕ) :
    ((∀ i : ℕ, i < k → ¬ isSameDay (dateN t i) (lastDayOfMonth (dateN t i))) →
      (mpLoop a t k).balance = a.balance
        ∧ (mpLoop a t k).interestAccrued = a.interestAccrued)
    ∧ (¬ isSameDay t (lastDayOfMonth t) →
        (mpStep a t).balance = a.balance
        ∧ (mpStep a t).interestAccrued = a.interestAccrued
        ∧ (mpStep a t).pendingInterest = pendingAfterDay a)
    ∧ (isSameDay t (lastDayOfMonth t) →
        (mpStep a t).pendingInterest = Dec.zero
        ∧ (mpStep a t).balance
            = addA a.balance (applyRound (.bankers 2) (decR40 (pendingAfterDay a))) .none
        ∧ (applyRound (.bankers 2) (decR40 (pendingAfterDay a))).toRat
            = ((rheQ ((decR40 (pendingAfterDay a)).toRat * 100) : ℤ) : ℚ) / 100) := by
  refine ⟨mpLoop_no_posting k a t, ?_, ?_⟩
  · intro hd
    rw [mpStep_not_posting a t hd]
    exact ⟨rfl, rfl, rfl⟩
  · intro hd
    rw [mpStep_posting a t hd]
    refine ⟨rfl, ?_, applyRound_b2_toRat _⟩
    rw [addA_zero_right_b2]

end ApyApr
